import Mathlib

/-!
# Text-object mode of the vigo editor

A shallow embedding of `editor/textobject.go`: the key-by-key parser of a
vi-style text object (`[count] [i|a] <kind>`) and the exit step that applies
the delegate range operation.

Conventions of the embedding

* Go `rune` and `int` values are integers (`Int`).  The only arithmetic done
  by the file on `int` is the product `m.reps*m.outerReps`, modelled by
  `mulInt` with the wrap-around of a 64-bit `int`.  The field `reps` is an
  `int` too: what `parseReps` hands it lies in `[-2^63, 2^63)`.
* `textObjectStage` and `textObjectKind` are Go `int` types whose constants
  are numbered by `iota`; they are kept as integers so that the zero value of
  a field is visibly the constant numbered `0`.
* Calls on the host editor (`setMode`, `setStatus`, the view context's
  `setStatus`, `NextWord`, the delegate `f`, `FinalizeActionGroup`) are
  recorded, in order, in a list of effects.  What those calls do to the
  editor is left arbitrary: it is a `Host` record over an arbitrary world.
-/

namespace Vigo

/-! ## Data model -/

/-- A Go `rune` (an `int32`), here an integer. -/
abbrev Rune := Int

/-- The rune of a character literal. -/
def rune (c : Char) : Rune := (c.toNat : Int)

/-- Handle of an `editorMode` value (the mode to restore). -/
abbrev EditorMode := Nat

/-- Go `type textObjectStage int`. -/
abbrev TextObjectStage := Int

abbrev textObjectStageReps : TextObjectStage := 0
abbrev textObjectStageChar1 : TextObjectStage := 1
abbrev textObjectStageChar2 : TextObjectStage := 2

/-- Go `type textObjectKind int`. -/
abbrev TextObjectKind := Int

abbrev textObjectWord : TextObjectKind := 0
abbrev textObjectWhitespaceWord : TextObjectKind := 1
abbrev textObjectSentence : TextObjectKind := 2
abbrev textObjectParagraph : TextObjectKind := 3
abbrev textObjectSection : TextObjectKind := 4
abbrev textObjectPercent : TextObjectKind := 5
abbrev textObjectParens : TextObjectKind := 6
abbrev textObjectBraces : TextObjectKind := 7

/-- Go `type textObject struct`. -/
structure TextObject where
  inner : Bool
  kind : TextObjectKind
deriving DecidableEq, Repr

/-- A non-nil Go `error` made by `errors.New`: it is its message. -/
structure GoError where
  msg : String
deriving DecidableEq, Repr

/-- Go `var ErrBadTextObject error = errors.New("bad text object")`. -/
def ErrBadTextObject : GoError := ⟨"bad text object"⟩

/-- Go `type textObjectMode struct`.  The fields `editor` and `f` are the
`Host` handed to `exit`; `err = none` is the nil error. -/
structure TextObjectMode where
  mode : EditorMode
  object : TextObject
  stage : TextObjectStage
  err : Option GoError
  outerReps : Int
  repChars : List Rune
  reps : Int
deriving DecidableEq, Repr

/-- The kind-letter table `textObjectKeyToType`; the result is the pair
`kind, ok` of a Go map lookup (`none` is `ok = false`). -/
def textObjectKeyToType (ch : Rune) : Option TextObjectKind :=
  if ch = rune 'w' then some textObjectWord
  else if ch = rune 'W' then some textObjectWhitespaceWord
  else if ch = rune 's' then some textObjectSentence
  else if ch = rune 'p' then some textObjectParagraph
  else if ch = rune 'S' then some textObjectSection
  else if ch = rune '%' then some textObjectPercent
  else if ch = rune 'b' then some textObjectParens
  else if ch = rune 'B' then some textObjectBraces
  else none

/-- Go `newTextObjectMode(editor, mode, f, reps)`: the fields that the
composite literal does not name hold their zero value. -/
def newTextObjectMode (mode : EditorMode) (reps : Int) : TextObjectMode :=
  { mode := mode
    object := { inner := false, kind := 0 }
    stage := textObjectStageReps
    err := none
    outerReps := reps
    repChars := []
    reps := 0 }

/-! ## Repetition count -/

/-- Value of a string of decimal digits, most significant digit first. -/
def decimalValue (s : List Rune) : Int :=
  s.foldl (fun acc c => acc * 10 + (c - rune '0')) 0

/-- An integer as a 64-bit Go `int` holds it: reduced into `[-2^63, 2^63)`. -/
def wrapInt (x : Int) : Int :=
  (x + 2 ^ 63) % 2 ^ 64 - 2 ^ 63

/-- Modelled from the spec: `parseReps` is called by `onKey` but defined in
another file of package `editor`.  The spec says of it: "resolve the
accumulated digits to an integer (empty → 1, per the repetition-parsing
rule)".  The argument is `string(m.repChars)`, kept as its list of runes.
The result is assigned to the field `reps`, a Go `int`, so it is an `int`:
the decimal value of the digits where that value is below `2^63`.  For a
longer numeral the spec says nothing; the model then returns the value
wrapped into the range of `int`, and no statement below says what `reps` is
there beyond its being an `int`. -/
def parseReps (s : List Rune) : Int :=
  if s = [] then 1 else wrapInt (decimalValue s)

/-- Go `a*b` on a 64-bit `int`: the product, wrapped into
`[-2^63, 2^63)`. -/
def mulInt (a b : Int) : Int :=
  (a * b + 2 ^ 63) % 2 ^ 64 - 2 ^ 63

/-! ## Key consumption -/

/-- Calls that `onKey` makes on the host editor. -/
inductive KeyEffect where
  | setMode (mode : EditorMode)
deriving DecidableEq, Repr

/-- One pass through the `switch m.stage` of `onKey` for the key `ch`: the
session after the pass, the editor calls made, and whether the pass ended in
`goto loop`.  A stage outside the three cases matches no case. -/
def onKeySwitch (m : TextObjectMode) (ch : Rune) :
    TextObjectMode × List KeyEffect × Bool :=
  if m.stage = textObjectStageReps then
    if (rune '0' < ch ∧ ch ≤ rune '9') ∨ (ch = rune '0' ∧ m.repChars.length > 0) then
      ({ m with repChars := m.repChars ++ [ch] }, [], false)
    else
      ({ m with reps := parseReps m.repChars, stage := textObjectStageChar1 }, [], true)
  else if m.stage = textObjectStageChar1 then
    if ch = rune 'i' then
      ({ m with object := { m.object with inner := true } }, [], false)
    else if ch = rune 'a' then
      ({ m with object := { m.object with inner := false } }, [], false)
    else
      ({ m with stage := textObjectStageChar2 }, [], true)
  else if m.stage = textObjectStageChar2 then
    match textObjectKeyToType ch with
    | some kind =>
      ({ m with object := { m.object with kind := kind } }, [KeyEffect.setMode m.mode], false)
    | none =>
      ({ m with err := some ErrBadTextObject }, [KeyEffect.setMode m.mode], false)
  else
    (m, [], false)

/-- The `loop:` of `onKey`, with a bound on the number of passes through the
switch; `none` when the bound is reached before a pass ends without
`goto loop`. -/
def onKeyLoop : Nat → TextObjectMode → Rune → Option (TextObjectMode × List KeyEffect)
  | 0, _, _ => none
  | fuel + 1, m, ch =>
    match onKeySwitch m ch with
    | (m1, effs, false) => some (m1, effs)
    | (m1, effs, true) =>
      (onKeyLoop fuel m1 ch).map (fun r => (r.1, effs ++ r.2))

/-- The stages at which the switch of `onKey` is entered for the key `ch`,
in order (one entry per pass through the switch). -/
def onKeyStages : Nat → TextObjectMode → Rune → List TextObjectStage
  | 0, _, _ => []
  | fuel + 1, m, ch =>
    match onKeySwitch m ch with
    | (_, _, false) => [m.stage]
    | (m1, _, true) => m.stage :: onKeyStages fuel m1 ch

/-- Go `(m *textObjectMode) onKey(ev)`, on `ev.Ch`.  Three passes always
suffice (`onKey_total`). -/
def onKey (m : TextObjectMode) (ch : Rune) : Option (TextObjectMode × List KeyEffect) :=
  onKeyLoop 3 m ch

/-- The host's input loop: `onKey` on each key in turn, the editor calls
concatenated. -/
def feed : TextObjectMode → List Rune → Option (TextObjectMode × List KeyEffect)
  | m, [] => some (m, [])
  | m, ch :: rest =>
    match onKey m ch with
    | none => none
    | some (m1, e1) => (feed m1 rest).map (fun r => (r.1, e1 ++ r.2))

/-! ## Exit -/

/-- Calls that `exit` makes, in order.  `nextWord c ok` is a call of
`NextWord` on a cursor equal to `c` that returned `ok`; `setStatus` is
`m.editor.setStatus`, `ctxSetStatus` is `v.ctx.setStatus`. -/
inductive Effect (C : Type) where
  | setStatus (msg : String)
  | ctxSetStatus (msg : String)
  | nextWord (c : C) (ok : Bool)
  | rangeFunc (cFrom cTo : C)
  | finalizeActionGroup
deriving DecidableEq, Repr

/-- The collaborators of `exit` over a world `W` with cursors `C`: the
cursor of the view `v`, the boundary query, the delegate `m.f`, and the
effect of the status and finalize calls. -/
structure Host (W C : Type) where
  cursor : W → C
  nextWord : W → C → C × Bool
  f : W → C → C → W
  setStatus : W → String → W
  ctxSetStatus : W → String → W
  finalizeActionGroup : W → W

/-- The body of `for i := 0; i < m.reps*m.outerReps; i++`, run for the
given number of remaining iterations (the body does not write to the session,
so the bound is the same at every test).  `from` and `to` are both copies of
`v.cursor`, read at the start of the iteration. -/
def exitWordLoop {W C : Type} (h : Host W C) : Nat → W → W × List (Effect C)
  | 0, w => (w, [])
  | n + 1, w =>
    let cFrom := h.cursor w
    let r := h.nextWord w (h.cursor w)
    let w1 := if r.2 then w else h.ctxSetStatus w "End of buffer"
    let e1 := if r.2 then [] else [Effect.ctxSetStatus "End of buffer"]
    let w2 := h.f w1 cFrom r.1
    let rest := exitWordLoop h n w2
    (rest.1, [Effect.nextWord cFrom r.2] ++ e1 ++ [Effect.rangeFunc cFrom r.1] ++ rest.2)

/-- Go `(m *textObjectMode) exit()`. -/
def exit {W C : Type} (h : Host W C) (m : TextObjectMode) (w : W) : W × List (Effect C) :=
  match m.err with
  | some e => (h.setStatus w e.msg, [Effect.setStatus e.msg])
  | none =>
    if m.object.kind = textObjectWord then
      let r := exitWordLoop h (mulInt m.reps m.outerReps).toNat w
      (h.finalizeActionGroup r.1, r.2 ++ [Effect.finalizeActionGroup])
    else
      (h.setStatus w "range conversion not implemented",
        [Effect.setStatus "range conversion not implemented"])

/-! ## Observations on a list of effects -/

/-- Number of delegate invocations. -/
def delegateCalls {C : Type} (es : List (Effect C)) : Nat :=
  es.countP (fun e => match e with | Effect.rangeFunc _ _ => true | _ => false)

/-- Number of `FinalizeActionGroup` calls. -/
def finalizeCalls {C : Type} (es : List (Effect C)) : Nat :=
  es.countP (fun e => match e with | Effect.finalizeActionGroup => true | _ => false)

/-- Number of `NextWord` calls. -/
def nextWordCalls {C : Type} (es : List (Effect C)) : Nat :=
  es.countP (fun e => match e with | Effect.nextWord _ _ => true | _ => false)

/-- The status messages issued, through the editor or the view context. -/
def statusTexts {C : Type} (es : List (Effect C)) : List String :=
  es.filterMap (fun e => match e with
    | Effect.setStatus s => some s
    | Effect.ctxSetStatus s => some s
    | _ => none)

/-- The calls of one repetition of the word loop, made in the world `w`: the
boundary query on a copy of the cursor, the "End of buffer" status when the
query failed, and the delegate on the cursor and the copy. -/
def isRepetition {W C : Type} (h : Host W C) (es : List (Effect C)) : Prop :=
  ∃ w : W,
    es = [Effect.nextWord (h.cursor w) (h.nextWord w (h.cursor w)).2]
        ++ (if (h.nextWord w (h.cursor w)).2 then []
            else [Effect.ctxSetStatus "End of buffer"])
        ++ [Effect.rangeFunc (h.cursor w) (h.nextWord w (h.cursor w)).1]

/-- The calls of the repetition of the word loop that starts in the world
`w`. -/
def repetitionCalls {W C : Type} (h : Host W C) (w : W) : List (Effect C) :=
  [Effect.nextWord (h.cursor w) (h.nextWord w (h.cursor w)).2]
    ++ (if (h.nextWord w (h.cursor w)).2 then []
        else [Effect.ctxSetStatus "End of buffer"])
    ++ [Effect.rangeFunc (h.cursor w) (h.nextWord w (h.cursor w)).1]

/-- The world in which the next repetition of the word loop starts, after the
one that starts in `w`. -/
def afterRepetition {W C : Type} (h : Host W C) (w : W) : W :=
  h.f (if (h.nextWord w (h.cursor w)).2 then w else h.ctxSetStatus w "End of buffer")
    (h.cursor w) (h.nextWord w (h.cursor w)).1

/-- A host as `demoHost` whose delegate changes nothing (a yank): the cursor
stays where it is. -/
def yankHost (lim : Nat) : Host Nat Nat where
  cursor := fun w => w
  nextWord := fun _ c => if c < lim then (c + 1, true) else (c, false)
  f := fun w _ _ => w
  setStatus := fun w _ => w
  ctxSetStatus := fun w _ => w
  finalizeActionGroup := fun w => w

/-- A host over a world that is just the cursor position: `NextWord`
advances by one and fails at position `lim` or beyond; the delegate moves
the cursor to the end of the range. -/
def demoHost (lim : Nat) : Host Nat Nat where
  cursor := fun w => w
  nextWord := fun _ c => if c < lim then (c + 1, true) else (c, false)
  f := fun _ _ cTo => cTo
  setStatus := fun w _ => w
  ctxSetStatus := fun w _ => w
  finalizeActionGroup := fun w => w

/-! ## Vocabulary of the statements -/

/-- The eight keys of the kind-letter table. -/
def kindLetters : List Rune :=
  [rune 'w', rune 'W', rune 's', rune 'p', rune 'S', rune '%', rune 'b', rune 'B']

/-- The rune is one of `'0'..'9'`. -/
def isDigit (ch : Rune) : Prop := rune '0' ≤ ch ∧ ch ≤ rune '9'

instance (ch : Rune) : Decidable (isDigit ch) := by
  unfold isDigit; infer_instance

/-- The string matches `[1-9][0-9]*`. -/
def isCount : List Rune → Bool
  | [] => false
  | c :: rest => decide (rune '1' ≤ c ∧ c ≤ rune '9') && rest.all (fun d => decide (isDigit d))

/-- The integer that a string of decimal digits denotes, by Mathlib's
positional value `Nat.ofDigits` (which takes the least significant digit
first). -/
def countValue (D : List Rune) : Int :=
  ((Nat.ofDigits 10 ((D.map (fun c => (c - rune '0').toNat)).reverse) : Nat) : Int)

/-- The inner count that the digits `D` stand for: `1` when there are none. -/
def innerCount (D : List Rune) : Int :=
  if D = [] then 1 else countValue D

/-- The switch of `onKey` reaches `case textObjectStageChar2` for the key
`ch` on the session `m`. -/
def reachesChar2 (m : TextObjectMode) (ch : Rune) : Prop :=
  textObjectStageChar2 ∈ onKeyStages 3 m ch

instance (m : TextObjectMode) (ch : Rune) : Decidable (reachesChar2 m ch) := by
  unfold reachesChar2; infer_instance

/-- The session as it stands when the switch of `onKey` enters
`case textObjectStageChar2`: from stage Reps the count has been resolved on
the way. -/
def atChar2 (m : TextObjectMode) : TextObjectMode :=
  if m.stage = textObjectStageReps then
    { m with reps := parseReps m.repChars, stage := textObjectStageChar2 }
  else
    { m with stage := textObjectStageChar2 }

/-- The key is accepted as a digit of the count by `case textObjectStageReps`
on the session `m` (the condition of its `if`). -/
def acceptsDigit (m : TextObjectMode) (ch : Rune) : Prop :=
  (rune '0' < ch ∧ ch ≤ rune '9') ∨ (ch = rune '0' ∧ m.repChars.length > 0)

instance (m : TextObjectMode) (ch : Rune) : Decidable (acceptsDigit m ch) := by
  unfold acceptsDigit; infer_instance


/-! ## Runes -/

@[simp] theorem rune_0 : rune '0' = 48 := rfl
@[simp] theorem rune_1 : rune '1' = 49 := rfl
@[simp] theorem rune_9 : rune '9' = 57 := rfl
@[simp] theorem rune_i : rune 'i' = 105 := rfl
@[simp] theorem rune_a : rune 'a' = 97 := rfl
@[simp] theorem rune_w : rune 'w' = 119 := rfl
@[simp] theorem rune_W : rune 'W' = 87 := rfl
@[simp] theorem rune_s : rune 's' = 115 := rfl
@[simp] theorem rune_p : rune 'p' = 112 := rfl
@[simp] theorem rune_S : rune 'S' = 83 := rfl
@[simp] theorem rune_percent : rune '%' = 37 := rfl
@[simp] theorem rune_b : rune 'b' = 98 := rfl
@[simp] theorem rune_B : rune 'B' = 66 := rfl

/-! ## The kind-letter table -/

theorem lookup_none_iff (ch : Rune) :
    textObjectKeyToType ch = none ↔ ch ∉ kindLetters := by
  simp only [textObjectKeyToType, kindLetters, rune_w, rune_W, rune_s, rune_p, rune_S,
    rune_percent, rune_b, rune_B, List.mem_cons, List.mem_singleton, List.not_mem_nil,
    or_false, not_or]
  constructor
  · intro h
    repeat' constructor
    all_goals (intro hc; subst hc; simp at h)
  · rintro ⟨h1, h2, h3, h4, h5, h6, h7, h8⟩
    simp [h1, h2, h3, h4, h5, h6, h7, h8]

theorem lookup_digit (ch : Rune) (h : isDigit ch) : textObjectKeyToType ch = none := by
  rw [lookup_none_iff]
  simp only [isDigit, rune_0, rune_9] at h
  simp only [kindLetters, rune_w, rune_W, rune_s, rune_p, rune_S,
    rune_percent, rune_b, rune_B, List.mem_cons, List.mem_singleton, List.not_mem_nil,
    or_false, not_or]
  unfold Rune at *
  omega

/-! ## One call of `onKey`, by stage -/

/-- What `case textObjectStageChar2` leaves: the session and the editor calls. -/
theorem onKey_char2 (m : TextObjectMode) (ch : Rune) (h : m.stage = textObjectStageChar2) :
    onKey m ch = some (match textObjectKeyToType ch with
      | some kind => ({ m with object := { m.object with kind := kind } }, [KeyEffect.setMode m.mode])
      | none => ({ m with err := some ErrBadTextObject }, [KeyEffect.setMode m.mode])) := by
  simp [onKey, onKeyLoop, onKeySwitch, h]
  cases textObjectKeyToType ch <;> simp

theorem onKey_char1_i (m : TextObjectMode) (h : m.stage = textObjectStageChar1) :
    onKey m (rune 'i') = some ({ m with object := { m.object with inner := true } }, []) := by
  simp [onKey, onKeyLoop, onKeySwitch, h]

theorem onKey_char1_a (m : TextObjectMode) (h : m.stage = textObjectStageChar1) :
    onKey m (rune 'a') = some ({ m with object := { m.object with inner := false } }, []) := by
  simp [onKey, onKeyLoop, onKeySwitch, h]

theorem onKey_char1_other (m : TextObjectMode) (ch : Rune) (h : m.stage = textObjectStageChar1)
    (hi : ch ≠ rune 'i') (ha : ch ≠ rune 'a') :
    onKey m ch = onKey { m with stage := textObjectStageChar2 } ch := by
  simp only [rune_i, rune_a] at hi ha
  simp [onKey, onKeyLoop, onKeySwitch, h, hi, ha]
  cases textObjectKeyToType ch <;> simp

theorem onKey_reps_accept (m : TextObjectMode) (ch : Rune) (h : m.stage = textObjectStageReps)
    (hd : (rune '0' < ch ∧ ch ≤ rune '9') ∨ (ch = rune '0' ∧ m.repChars.length > 0)) :
    onKey m ch = some ({ m with repChars := m.repChars ++ [ch] }, []) := by
  simp only [onKey, onKeyLoop, onKeySwitch, h, if_true, hd]

theorem onKey_reps_reject (m : TextObjectMode) (ch : Rune) (h : m.stage = textObjectStageReps)
    (hd : ¬ ((rune '0' < ch ∧ ch ≤ rune '9') ∨ (ch = rune '0' ∧ m.repChars.length > 0))) :
    onKey m ch = onKey { m with reps := parseReps m.repChars, stage := textObjectStageChar1 } ch := by
  simp only [onKey, onKeyLoop, onKeySwitch, h, if_true, hd, if_false]
  by_cases hi : ch = rune 'i'
  · simp [hi]
  by_cases ha : ch = rune 'a'
  · simp [ha]
  simp only [rune_i, rune_a] at hi ha
  simp [hi, ha]
  cases textObjectKeyToType ch <;> simp

/-- Three passes through the switch always suffice: `onKey` returns. -/
theorem onKey_total (m : TextObjectMode) (ch : Rune) : ∃ r, onKey m ch = some r := by
  by_cases h0 : m.stage = textObjectStageReps
  · by_cases hd : (rune '0' < ch ∧ ch ≤ rune '9') ∨ (ch = rune '0' ∧ m.repChars.length > 0)
    · exact ⟨_, onKey_reps_accept m ch h0 hd⟩
    · rw [onKey_reps_reject m ch h0 hd]
      by_cases hi : ch = rune 'i'
      · subst hi; exact ⟨_, onKey_char1_i _ rfl⟩
      by_cases ha : ch = rune 'a'
      · subst ha; exact ⟨_, onKey_char1_a _ rfl⟩
      rw [onKey_char1_other _ ch rfl hi ha]
      exact ⟨_, onKey_char2 _ ch rfl⟩
  by_cases h1 : m.stage = textObjectStageChar1
  · by_cases hi : ch = rune 'i'
    · subst hi; exact ⟨_, onKey_char1_i _ h1⟩
    by_cases ha : ch = rune 'a'
    · subst ha; exact ⟨_, onKey_char1_a _ h1⟩
    rw [onKey_char1_other _ ch h1 hi ha]
    exact ⟨_, onKey_char2 _ ch rfl⟩
  by_cases h2 : m.stage = textObjectStageChar2
  · exact ⟨_, onKey_char2 _ ch h2⟩
  · exact ⟨(m, []), by simp [onKey, onKeyLoop, onKeySwitch, h0, h1, h2]⟩


/-! ## Digits -/

theorem decimalValue_foldl (D : List Rune) (acc : Int)
    (hD : ∀ d ∈ D, isDigit d) :
    D.foldl (fun a c => a * 10 + (c - rune '0')) acc
      = acc * 10 ^ D.length + countValue D := by
  induction D generalizing acc with
  | nil => simp [countValue]
  | cons c r ih =>
    have hc : isDigit c := hD c (List.mem_cons_self _ _)
    have hr : ∀ d ∈ r, isDigit d := fun d hd => hD d (List.mem_cons_of_mem _ hd)
    rw [List.foldl_cons, ih _ hr]
    simp only [countValue, List.map_cons, List.reverse_cons, Nat.ofDigits_append,
      Nat.ofDigits_singleton, List.length_reverse, List.length_map, List.length_cons]
    simp only [isDigit, rune_0, rune_9] at hc
    have h48 : ((c - rune '0').toNat : Int) = c - 48 := by
      rw [rune_0]; unfold Rune at *; omega
    push_cast
    rw [h48, rune_0]
    ring

theorem decimalValue_eq (D : List Rune) (hD : ∀ d ∈ D, isDigit d) :
    decimalValue D = countValue D := by
  unfold decimalValue
  rw [decimalValue_foldl D 0 hD]
  simp

theorem isCount_digits (D : List Rune) (h : isCount D = true) : ∀ d ∈ D, isDigit d := by
  cases D with
  | nil => simp [isCount] at h
  | cons c r =>
    simp only [isCount, Bool.and_eq_true, decide_eq_true_eq, List.all_eq_true] at h
    intro d hd
    rcases List.mem_cons.mp hd with rfl | hd
    · have := h.1
      simp only [isDigit, rune_0, rune_9, rune_1] at this ⊢
      unfold Rune at *
      omega
    · exact h.2 d hd

theorem isCount_head (D : List Rune) (h : isCount D = true) :
    ∃ c r, D = c :: r ∧ rune '0' < c ∧ c ≤ rune '9' := by
  cases D with
  | nil => simp [isCount] at h
  | cons c r =>
    simp only [isCount, Bool.and_eq_true, decide_eq_true_eq, List.all_eq_true] at h
    refine ⟨c, r, rfl, ?_⟩
    have := h.1
    simp only [rune_0, rune_9, rune_1] at this ⊢
    unfold Rune at *
    omega

/-- What `parseReps` returns is a 64-bit `int`. -/
theorem parseReps_is_int (s : List Rune) :
    -(2 ^ 63) ≤ parseReps s ∧ parseReps s < 2 ^ 63 := by
  unfold parseReps wrapInt
  split
  · exact ⟨by decide, by decide⟩
  · have h1 := Int.emod_nonneg (decimalValue s + 2 ^ 63) (show (2 : Int) ^ 64 ≠ 0 by decide)
    have h2 := Int.emod_lt_of_pos (decimalValue s + 2 ^ 63) (show (0 : Int) < 2 ^ 64 by decide)
    constructor <;> omega

/-- An integer inside the range of `int` is held as it is. -/
theorem wrapInt_of_fits (x : Int) (h0 : 0 ≤ x) (h1 : x < 2 ^ 63) : wrapInt x = x := by
  unfold wrapInt
  have : (x + 2 ^ 63) % 2 ^ 64 = x + 2 ^ 63 :=
    Int.emod_eq_of_lt (by omega) (by omega)
  omega

/-- A count is at least 1. -/
theorem countValue_pos (D : List Rune) (h : isCount D = true) : 1 ≤ countValue D := by
  obtain ⟨c, r, rfl, hc0, hc9⟩ := isCount_head D h
  simp only [countValue, List.map_cons, List.reverse_cons, Nat.ofDigits_append,
    Nat.ofDigits_singleton, List.length_reverse, List.length_map]
  have hc1 : 1 ≤ (c - rune '0').toNat := by
    simp only [rune_0] at hc0 ⊢
    unfold Rune at *
    omega
  have hp : 1 ≤ 10 ^ r.length := Nat.one_le_pow _ _ (by norm_num)
  have hmul : 1 ≤ 10 ^ r.length * (c - rune '0').toNat := Nat.mul_le_mul hp hc1
  exact_mod_cast le_trans hmul (Nat.le_add_left _ _)

theorem innerCount_pos (D : List Rune) (hD : isCount D = true ∨ D = []) : 1 ≤ innerCount D := by
  unfold innerCount
  rcases hD with h | h
  · have hne : D ≠ [] := by rintro rfl; simp [isCount] at h
    simp [hne, countValue_pos D h]
  · simp [h]

/-- On the empty string and on a count whose value fits the `int`,
`parseReps` returns the inner count that the digits stand for. -/
theorem parseReps_eq (D : List Rune) (hD : isCount D = true ∨ D = [])
    (hfit : innerCount D < 2 ^ 63) :
    parseReps D = innerCount D := by
  have hpos := innerCount_pos D hD
  unfold parseReps
  unfold innerCount at hfit hpos ⊢
  rcases hD with h | h
  · have hne : D ≠ [] := by rintro rfl; simp [isCount] at h
    simp only [if_neg hne] at hfit hpos ⊢
    rw [decimalValue_eq D (isCount_digits D h)]
    exact wrapInt_of_fits _ (by omega) hfit
  · simp [h]

/-! ## Feeding the digits of a count -/

theorem feed_nil (m : TextObjectMode) : feed m [] = some (m, []) := rfl

theorem feed_cons (m m1 : TextObjectMode) (e1 : List KeyEffect) (ch : Rune) (rest : List Rune)
    (h : onKey m ch = some (m1, e1)) :
    feed m (ch :: rest) = (feed m1 rest).map (fun r => (r.1, e1 ++ r.2)) := by
  simp [feed, h]

theorem feed_append (m m1 : TextObjectMode) (e1 : List KeyEffect) (ks1 ks2 : List Rune)
    (h : feed m ks1 = some (m1, e1)) :
    feed m (ks1 ++ ks2) = (feed m1 ks2).map (fun r => (r.1, e1 ++ r.2)) := by
  induction ks1 generalizing m e1 with
  | nil =>
    simp only [feed_nil, Option.some.injEq, Prod.mk.injEq] at h
    obtain ⟨rfl, rfl⟩ := h
    rw [List.nil_append]
    cases feed m ks2 <;> simp
  | cons k ks ih =>
    obtain ⟨⟨m2, e2⟩, hk⟩ := onKey_total m k
    rw [feed_cons m m2 e2 k ks hk] at h
    rw [List.cons_append, feed_cons m m2 e2 k (ks ++ ks2) hk]
    cases hf : feed m2 ks with
    | none => simp [hf] at h
    | some r =>
      obtain ⟨m3, e3⟩ := r
      simp only [hf, Option.map_some', Option.some.injEq, Prod.mk.injEq] at h
      obtain ⟨rfl, rfl⟩ := h
      rw [ih m2 e3 hf]
      cases feed m3 ks2 <;> simp

/-- Digits of a count fed at stage Reps are appended to the digit buffer and
nothing else changes. -/
theorem feed_digits (m : TextObjectMode) (D : List Rune) (hs : m.stage = textObjectStageReps)
    (hD : ∀ d ∈ D, isDigit d)
    (h0 : m.repChars = [] → ∀ c r, D = c :: r → rune '0' < c) :
    feed m D = some ({ m with repChars := m.repChars ++ D }, []) := by
  induction D generalizing m with
  | nil => simp [feed_nil]
  | cons c r ih =>
    have hc : isDigit c := hD c (List.mem_cons_self _ _)
    have hr : ∀ d ∈ r, isDigit d := fun d hd => hD d (List.mem_cons_of_mem _ hd)
    have hacc : (rune '0' < c ∧ c ≤ rune '9') ∨ (c = rune '0' ∧ m.repChars.length > 0) := by
      by_cases hz : c = rune '0'
      · right
        refine ⟨hz, ?_⟩
        by_cases he : m.repChars = []
        · have := h0 he c r rfl
          rw [hz] at this
          exact absurd this (lt_irrefl _)
        · exact List.length_pos.mpr he
      · left
        simp only [isDigit, rune_0, rune_9] at hc hz ⊢
        unfold Rune at *
        omega
    rw [feed_cons m _ _ c r (onKey_reps_accept m c hs hacc)]
    rw [ih { m with repChars := m.repChars ++ [c] } hs hr (by intro he; simp at he)]
    simp


/-! ## Falling through to `case textObjectStageChar2` -/

theorem onKey_reps_fall (m : TextObjectMode) (ch : Rune) (h : m.stage = textObjectStageReps)
    (hd : ¬ acceptsDigit m ch) (hi : ch ≠ rune 'i') (ha : ch ≠ rune 'a') :
    onKey m ch
      = onKey { m with reps := parseReps m.repChars, stage := textObjectStageChar2 } ch := by
  rw [onKey_reps_reject m ch h hd, onKey_char1_other _ ch rfl hi ha]

theorem reachesChar2_cases (m : TextObjectMode) (ch : Rune) (h : reachesChar2 m ch) :
    m.stage = textObjectStageChar2
    ∨ (m.stage = textObjectStageChar1 ∧ ch ≠ rune 'i' ∧ ch ≠ rune 'a')
    ∨ (m.stage = textObjectStageReps ∧ ¬ acceptsDigit m ch ∧ ch ≠ rune 'i' ∧ ch ≠ rune 'a') := by
  unfold reachesChar2 at h
  by_cases h0 : m.stage = textObjectStageReps
  · right; right
    refine ⟨h0, ?_⟩
    by_cases hd : acceptsDigit m ch
    · exfalso
      have hd2 := hd
      unfold acceptsDigit at hd2
      simp only [rune_0, rune_9] at hd2
      simp [onKeyStages, onKeySwitch, h0, hd2] at h
    · refine ⟨hd, ?_⟩
      unfold acceptsDigit at hd
      by_cases hi : ch = rune 'i'
      · exfalso; subst hi
        simp [onKeyStages, onKeySwitch, h0] at h
      by_cases ha : ch = rune 'a'
      · exfalso; subst ha
        simp [onKeyStages, onKeySwitch, h0] at h
      exact ⟨hi, ha⟩
  by_cases h1 : m.stage = textObjectStageChar1
  · right; left
    refine ⟨h1, ?_⟩
    by_cases hi : ch = rune 'i'
    · exfalso; subst hi
      simp [onKeyStages, onKeySwitch, h1] at h
    by_cases ha : ch = rune 'a'
    · exfalso; subst ha
      simp [onKeyStages, onKeySwitch, h1] at h
    exact ⟨hi, ha⟩
  by_cases h2 : m.stage = textObjectStageChar2
  · exact Or.inl h2
  · exfalso
    simp [onKeyStages, onKeySwitch, h0, h1, h2] at h
    exact h2 h.symm

theorem onKey_of_reachesChar2 (m : TextObjectMode) (ch : Rune) (h : reachesChar2 m ch) :
    onKey m ch = onKey (atChar2 m) ch := by
  rcases reachesChar2_cases m ch h with h2 | ⟨h1, hi, ha⟩ | ⟨h0, hd, hi, ha⟩
  · have : atChar2 m = m := by
      unfold atChar2
      rw [if_neg (by rw [h2]; decide)]
      cases m; simp_all
    rw [this]
  · have : atChar2 m = { m with stage := textObjectStageChar2 } := by
      unfold atChar2
      rw [if_neg (by rw [h1]; decide)]
    rw [this, onKey_char1_other m ch h1 hi ha]
  · have : atChar2 m = { m with reps := parseReps m.repChars, stage := textObjectStageChar2 } := by
      unfold atChar2
      rw [if_pos h0]
    rw [this, onKey_reps_fall m ch h0 hd hi ha]

theorem atChar2_stage (m : TextObjectMode) : (atChar2 m).stage = textObjectStageChar2 := by
  unfold atChar2; split <;> rfl

theorem atChar2_mode (m : TextObjectMode) : (atChar2 m).mode = m.mode := by
  unfold atChar2; split <;> rfl

theorem atChar2_err (m : TextObjectMode) : (atChar2 m).err = m.err := by
  unfold atChar2; split <;> rfl

theorem atChar2_object (m : TextObjectMode) : (atChar2 m).object = m.object := by
  unfold atChar2; split <;> rfl

/-! ## The exit step -/

theorem exit_err {W C : Type} (h : Host W C) (m : TextObjectMode) (w : W) (e : GoError)
    (he : m.err = some e) :
    exit h m w = (h.setStatus w e.msg, [Effect.setStatus e.msg]) := by
  simp [exit, he]

theorem exit_word {W C : Type} (h : Host W C) (m : TextObjectMode) (w : W)
    (he : m.err = none) (hk : m.object.kind = textObjectWord) :
    (exit h m w).2
      = (exitWordLoop h (mulInt m.reps m.outerReps).toNat w).2 ++ [Effect.finalizeActionGroup] := by
  simp [exit, he, hk]

theorem exit_other {W C : Type} (h : Host W C) (m : TextObjectMode) (w : W)
    (he : m.err = none) (hk : m.object.kind ≠ textObjectWord) :
    exit h m w = (h.setStatus w "range conversion not implemented",
      [Effect.setStatus "range conversion not implemented"]) := by
  simp [exit, he, hk]

theorem delegateCalls_append {C : Type} (a b : List (Effect C)) :
    delegateCalls (a ++ b) = delegateCalls a + delegateCalls b := by
  simp [delegateCalls]

theorem finalizeCalls_append {C : Type} (a b : List (Effect C)) :
    finalizeCalls (a ++ b) = finalizeCalls a + finalizeCalls b := by
  simp [finalizeCalls]

theorem nextWordCalls_append {C : Type} (a b : List (Effect C)) :
    nextWordCalls (a ++ b) = nextWordCalls a + nextWordCalls b := by
  simp [nextWordCalls]

theorem exitWordLoop_succ {W C : Type} (h : Host W C) (n : Nat) (w : W) :
    (exitWordLoop h (n + 1) w).2
      = [Effect.nextWord (h.cursor w) (h.nextWord w (h.cursor w)).2]
        ++ (if (h.nextWord w (h.cursor w)).2 then [] else [Effect.ctxSetStatus "End of buffer"])
        ++ [Effect.rangeFunc (h.cursor w) (h.nextWord w (h.cursor w)).1]
        ++ (exitWordLoop h n
            (h.f (if (h.nextWord w (h.cursor w)).2 then w else h.ctxSetStatus w "End of buffer")
              (h.cursor w) (h.nextWord w (h.cursor w)).1)).2 := by
  simp [exitWordLoop]

/-- The loop invokes the delegate once per iteration, whatever the host does. -/
theorem exitWordLoop_delegateCalls {W C : Type} (h : Host W C) (n : Nat) (w : W) :
    delegateCalls (exitWordLoop h n w).2 = n := by
  induction n generalizing w with
  | zero => simp [exitWordLoop, delegateCalls]
  | succ n ih =>
    rw [exitWordLoop_succ, delegateCalls_append, ih]
    cases (h.nextWord w (h.cursor w)).2 <;> simp [delegateCalls] <;> omega

theorem exitWordLoop_finalizeCalls {W C : Type} (h : Host W C) (n : Nat) (w : W) :
    finalizeCalls (exitWordLoop h n w).2 = 0 := by
  induction n generalizing w with
  | zero => simp [exitWordLoop, finalizeCalls]
  | succ n ih =>
    rw [exitWordLoop_succ, finalizeCalls_append, ih]
    cases (h.nextWord w (h.cursor w)).2 <;> simp [finalizeCalls]

theorem exitWordLoop_nextWordCalls {W C : Type} (h : Host W C) (n : Nat) (w : W) :
    nextWordCalls (exitWordLoop h n w).2 = n := by
  induction n generalizing w with
  | zero => simp [exitWordLoop, nextWordCalls]
  | succ n ih =>
    rw [exitWordLoop_succ, nextWordCalls_append, ih]
    cases (h.nextWord w (h.cursor w)).2 <;> simp [nextWordCalls] <;> omega

/-- A product that fits a 64-bit `int` is not wrapped. -/
theorem mulInt_of_fits (a b : Int) (h0 : 0 ≤ a * b) (h1 : a * b < 2 ^ 63) :
    mulInt a b = a * b := by
  unfold mulInt
  have : (a * b + 2 ^ 63) % 2 ^ 64 = a * b + 2 ^ 63 :=
    Int.emod_eq_of_lt (by omega) (by omega)
  omega


/-! ## Sessions after a count -/

/-- Feeding a count to a fresh session only fills the digit buffer. -/
theorem feed_count (mode : EditorMode) (O : Int) (D : List Rune)
    (hD : isCount D = true ∨ D = []) :
    feed (newTextObjectMode mode O) D
      = some ({ newTextObjectMode mode O with repChars := D }, []) := by
  rcases hD with h | h
  · have hf := feed_digits (newTextObjectMode mode O) D rfl (isCount_digits D h) (by
      intro _ c r hcr
      obtain ⟨c2, r2, h2, hc, _⟩ := isCount_head D h
      rw [hcr] at h2
      cases h2
      exact hc)
    rw [hf]
    simp [newTextObjectMode]
  · subst h
    rfl

/-- The session left by `[count] [i|a] w` on a fresh session. -/
theorem feed_count_word (mode : EditorMode) (O : Int) (D sel : List Rune)
    (hD : isCount D = true ∨ D = [])
    (hsel : sel = [] ∨ sel = [rune 'i'] ∨ sel = [rune 'a']) :
    feed (newTextObjectMode mode O) (D ++ sel ++ [rune 'w'])
      = some ({ newTextObjectMode mode O with
                  repChars := D
                  reps := parseReps D
                  stage := textObjectStageChar2
                  object := { inner := decide (sel = [rune 'i']), kind := textObjectWord } },
              [KeyEffect.setMode mode]) := by
  rw [List.append_assoc, feed_append _ _ _ D (sel ++ [rune 'w']) (feed_count mode O D hD)]
  rcases hsel with h | h | h <;> subst h <;>
    simp [feed, onKey, onKeyLoop, onKeySwitch, textObjectKeyToType, newTextObjectMode]


/-! ## The word object with a count -/

/-- C1, amended: for every outer count `O ≥ 1`, every digit string `D` that is
empty or matches `[1-9][0-9]*` (of value `I`, `I = 1` when `D` is empty) and
every optional selector, when the product `O * I` fits a 64-bit `int`
(`O * I < 2^63`), feeding `D`, the selector and `w` to a fresh session returns
with one mode-restoration request, and `exit` on the resulting session, for
every host, invokes the delegate exactly `O * I` times and then calls finalize
exactly once, as the last call. -/
theorem word_invocations_when_product_fits (mode : EditorMode) (O : Int) (D sel : List Rune)
    (hO : 1 ≤ O) (hD : isCount D = true ∨ D = [])
    (hsel : sel = [] ∨ sel = [rune 'i'] ∨ sel = [rune 'a'])
    (hfit : O * innerCount D < 2 ^ 63) :
    ∃ m, feed (newTextObjectMode mode O) (D ++ sel ++ [rune 'w'])
          = some (m, [KeyEffect.setMode mode])
      ∧ m.reps = innerCount D
      ∧ m.object = { inner := decide (sel = [rune 'i']), kind := textObjectWord }
      ∧ ∀ (W C : Type) (h : Host W C) (w : W), ∃ pre,
          (exit h m w).2 = pre ++ [Effect.finalizeActionGroup]
          ∧ delegateCalls pre = (O * innerCount D).toNat
          ∧ finalizeCalls pre = 0 := by
  have hI := innerCount_pos D hD
  have hIfit : innerCount D < 2 ^ 63 := by nlinarith
  refine ⟨_, feed_count_word mode O D sel hD hsel, parseReps_eq D hD hIfit, rfl, ?_⟩
  intro W C h w
  refine ⟨_, exit_word h _ w rfl rfl, ?_, exitWordLoop_finalizeCalls h _ w⟩
  rw [exitWordLoop_delegateCalls]
  have hmul : mulInt (parseReps D) O = O * innerCount D := by
    rw [parseReps_eq D hD hIfit,
      mulInt_of_fits _ _ (by nlinarith) (by rw [mul_comm]; exact hfit), mul_comm]
  show (mulInt (parseReps D) O).toNat = _
  rw [hmul]

/-- C1, the scenario of the spec: outer count 2 and input `3w` give six
delegate invocations followed by one finalize call. -/
theorem word_invocations_two_times_three :
    ∃ m, feed (newTextObjectMode 0 2) ([rune '3'] ++ [] ++ [rune 'w'])
          = some (m, [KeyEffect.setMode 0])
      ∧ m.reps = 3
      ∧ ∃ pre, (exit (demoHost 4) m 0).2 = pre ++ [Effect.finalizeActionGroup]
          ∧ delegateCalls pre = 6 ∧ finalizeCalls pre = 0 := by
  have hI : innerCount [rune '3'] = 3 := by
    simp [innerCount, countValue, rune]
  obtain ⟨m, hfeed, hreps, -, hexit⟩ :=
    word_invocations_when_product_fits 0 2 [rune '3'] [] (by decide) (Or.inl (by decide))
      (Or.inl rfl) (by rw [hI]; decide)
  obtain ⟨pre, h1, h2, h3⟩ := hexit Nat Nat (demoHost 4) 0
  rw [hI] at hreps h2
  exact ⟨m, hfeed, hreps, pre, h1, h2, h3⟩

/-- C1 as stated fails when the product leaves the range of `int`: with outer
count `2^62`, the input `4w` gives `reps = 4`; the product `4 * 2^62 = 2^64`
wraps to `0`, so `exit` invokes the delegate zero times (and finalizes once),
not `O * I = 2^64` times. -/
theorem word_invocations_product_wraps :
    feed (newTextObjectMode 0 (2 ^ 62)) ([rune '4'] ++ [] ++ [rune 'w'])
        = some ({ mode := 0, object := { inner := false, kind := textObjectWord },
                  stage := textObjectStageChar2, err := none, outerReps := 2 ^ 62,
                  repChars := [rune '4'], reps := 4 }, [KeyEffect.setMode 0])
      ∧ (exit (demoHost 4)
            { mode := 0, object := { inner := false, kind := textObjectWord },
              stage := textObjectStageChar2, err := none, outerReps := 2 ^ 62,
              repChars := [rune '4'], reps := 4 } 0).2 = [Effect.finalizeActionGroup]
      ∧ ((2 : Int) ^ 62 * innerCount [rune '4']).toNat = 2 ^ 64 := by
  refine ⟨by decide, ?_, ?_⟩
  · have hz : (mulInt 4 (2 ^ 62)).toNat = 0 := by decide
    simp [exit, hz, exitWordLoop]
  · simp [innerCount, countValue, rune]

/-- A count `D`, then a key that ends it, on a fresh session: the digits are
the digit buffer and `reps` is what `parseReps` returns on them. -/
theorem feed_count_then_key (mode : EditorMode) (O : Int) (D : List Rune) (k : Rune)
    (hD : isCount D = true ∨ D = [])
    (hk : ¬ (rune '1' ≤ k ∧ k ≤ rune '9')) (hk0 : k = rune '0' → D = []) :
    ∃ m effs, feed (newTextObjectMode mode O) (D ++ [k]) = some (m, effs)
      ∧ m.repChars = D ∧ m.reps = parseReps D := by
  obtain ⟨⟨m, effs⟩, hm⟩ := onKey_total
    { newTextObjectMode mode O with
        repChars := D
        reps := parseReps D
        stage := textObjectStageChar1 } k
  refine ⟨m, effs, ?_, ?_⟩
  · rw [feed_append _ _ _ D [k] (feed_count mode O D hD)]
    have hrej : ¬ ((rune '0' < k ∧ k ≤ rune '9')
        ∨ (k = rune '0' ∧ ({ newTextObjectMode mode O with repChars := D }).repChars.length > 0)) := by
      rintro (⟨h1, h2⟩ | ⟨h1, h2⟩)
      · apply hk
        simp only [rune_0, rune_1, rune_9] at h1 h2 ⊢
        unfold Rune at *
        omega
      · rw [hk0 h1] at h2
        simp at h2
    have hstep := onKey_reps_reject { newTextObjectMode mode O with repChars := D } k rfl hrej
    rw [feed_cons _ m effs k [] (by rw [hstep]; exact hm)]
    simp [feed_nil]
  · have hkeep : ∀ (m0 : TextObjectMode), m0.stage = textObjectStageChar1 →
        ∀ r, onKey m0 k = some r → r.1.repChars = m0.repChars ∧ r.1.reps = m0.reps := by
      intro m0 h1 r hr
      by_cases hi : k = rune 'i'
      · rw [hi, onKey_char1_i m0 h1] at hr
        cases hr; exact ⟨rfl, rfl⟩
      by_cases ha : k = rune 'a'
      · rw [ha, onKey_char1_a m0 h1] at hr
        cases hr; exact ⟨rfl, rfl⟩
      rw [onKey_char1_other m0 k h1 hi ha, onKey_char2 _ k rfl] at hr
      cases hr
      cases textObjectKeyToType k <;> exact ⟨rfl, rfl⟩
    have := hkeep _ rfl _ hm
    simp only at this
    rw [this.1, this.2]
    exact ⟨rfl, rfl⟩

/-- C2, amended: feeding a digit string `D` matching `[1-9][0-9]*` whose
integer value fits a 64-bit `int` (value below `2^63`) and then a key `k`
that is not a digit to a fresh session leaves `reps` equal to the integer
value of `D`; when the digit string is empty (the first key `k` is not an
accepted digit, that is not one of `1..9`), `reps` is 1. -/
theorem reps_is_value_of_digits (mode : EditorMode) (O : Int) (D : List Rune) (k : Rune)
    (hD : isCount D = true ∨ D = []) (hfit : countValue D < 2 ^ 63)
    (hk : ¬ (rune '1' ≤ k ∧ k ≤ rune '9')) (hk0 : k = rune '0' → D = []) :
    ∃ m effs, feed (newTextObjectMode mode O) (D ++ [k]) = some (m, effs)
      ∧ m.reps = (if D = [] then 1 else countValue D) := by
  obtain ⟨m, effs, h1, -, h3⟩ := feed_count_then_key mode O D k hD hk hk0
  refine ⟨m, effs, h1, ?_⟩
  have hI : innerCount D < 2 ^ 63 := by
    unfold innerCount
    split
    · decide
    · exact hfit
  rw [h3, parseReps_eq D hD hI]
  rfl

/-- C2 as stated fails on a count beyond the range of `int`: the twenty
digits `99999999999999999999` are all accepted by stage Reps, and their value
is above `2^63`, while `reps`, a Go `int` whatever `parseReps` returns, is
below `2^63`; so after the key `w` the count `reps` is not the integer value
of the digits. -/
theorem reps_cannot_hold_twenty_nines :
    ∃ m effs, feed (newTextObjectMode 0 1) (List.replicate 20 (rune '9') ++ [rune 'w'])
        = some (m, effs)
      ∧ m.repChars = List.replicate 20 (rune '9')
      ∧ countValue (List.replicate 20 (rune '9')) = 99999999999999999999
      ∧ m.reps < 2 ^ 63
      ∧ m.reps ≠ countValue (List.replicate 20 (rune '9')) := by
  obtain ⟨m, effs, h1, h2, h3⟩ :=
    feed_count_then_key 0 1 (List.replicate 20 (rune '9')) (rune 'w')
      (Or.inl (by decide)) (by decide) (by decide)
  have hv : countValue (List.replicate 20 (rune '9')) = 99999999999999999999 := by
    simp [countValue, rune, Nat.ofDigits, List.replicate]
  have hlt : m.reps < 2 ^ 63 := by
    rw [h3]
    exact (parseReps_is_int _).2
  refine ⟨m, effs, h1, h2, hv, hlt, ?_⟩
  rw [hv]
  intro he
  rw [he] at hlt
  revert hlt
  decide

/-- C2 at `D = "12"`, `k = 'w'`: `reps` is 12. -/
theorem reps_is_value_of_digits_twelve :
    ∃ m effs, feed (newTextObjectMode 0 1) ([rune '1', rune '2'] ++ [rune 'w']) = some (m, effs)
      ∧ m.reps = 12 := by
  have hv : countValue [rune '1', rune '2'] = 12 := by
    simp [countValue, rune, Nat.ofDigits]
  obtain ⟨m, effs, h1, h2⟩ := reps_is_value_of_digits 0 1 [rune '1', rune '2'] (rune 'w')
    (Or.inl (by decide)) (by rw [hv]; decide) (by decide) (by decide)
  refine ⟨m, effs, h1, ?_⟩
  rw [h2, hv]
  rfl


/-- C3: a key that is not one of the eight kind letters, processed by
`case textObjectStageChar2` (entered directly or by fallthrough), leaves the
session with `err = ErrBadTextObject` after one mode-restoration request; and
`exit` on that session, for every host, makes exactly one call, the status
message "bad text object": no delegate invocation, no finalize call. -/
theorem bad_kind_letter_reports_once (m : TextObjectMode) (k : Rune)
    (hk : k ∉ kindLetters) (hreach : reachesChar2 m k) :
    ∃ m1, onKey m k = some (m1, [KeyEffect.setMode m.mode])
      ∧ m1.err = some ErrBadTextObject
      ∧ ∀ (W C : Type) (h : Host W C) (w : W),
          (exit h m1 w).2 = [Effect.setStatus "bad text object"]
          ∧ statusTexts (exit h m1 w).2 = ["bad text object"]
          ∧ delegateCalls (exit h m1 w).2 = 0
          ∧ finalizeCalls (exit h m1 w).2 = 0 := by
  have hnone : textObjectKeyToType k = none := (lookup_none_iff k).mpr hk
  refine ⟨{ atChar2 m with err := some ErrBadTextObject }, ?_, rfl, ?_⟩
  · rw [onKey_of_reachesChar2 m k hreach, onKey_char2 _ k (atChar2_stage m)]
    simp only [hnone, atChar2_mode]
  · intro W C h w
    rw [exit_err h _ w ErrBadTextObject rfl]
    simp [statusTexts, delegateCalls, finalizeCalls, ErrBadTextObject]

/-- C3, the scenario of the spec: the input `q` on a fresh session. -/
theorem bad_kind_letter_q :
    ∃ m1, onKey (newTextObjectMode 0 1) (rune 'q') = some (m1, [KeyEffect.setMode 0])
      ∧ m1.err = some ErrBadTextObject
      ∧ (exit (demoHost 4) m1 0).2 = [Effect.setStatus "bad text object"]
      ∧ delegateCalls (exit (demoHost 4) m1 0).2 = 0 := by
  obtain ⟨m1, h1, h2, h3⟩ :=
    bad_kind_letter_reports_once (newTextObjectMode 0 1) (rune 'q') (by decide) (by decide)
  exact ⟨m1, h1, h2, (h3 Nat Nat (demoHost 4) 0).1, (h3 Nat Nat (demoHost 4) 0).2.2.1⟩

/-- C4: on a session with no error whose kind is one of the seven non-word
kinds, whatever the counts, `exit` makes exactly one call, the status message
"range conversion not implemented": no delegate invocation and no finalize
call. -/
theorem non_word_kind_not_implemented (m : TextObjectMode)
    (herr : m.err = none)
    (hkind : m.object.kind ∈ [textObjectWhitespaceWord, textObjectSentence,
      textObjectParagraph, textObjectSection, textObjectPercent, textObjectParens,
      textObjectBraces]) :
    ∀ (W C : Type) (h : Host W C) (w : W),
      (exit h m w).2 = [Effect.setStatus "range conversion not implemented"]
      ∧ statusTexts (exit h m w).2 = ["range conversion not implemented"]
      ∧ delegateCalls (exit h m w).2 = 0
      ∧ finalizeCalls (exit h m w).2 = 0 := by
  intro W C h w
  have hne : m.object.kind ≠ textObjectWord := by
    intro h0
    rw [h0] at hkind
    revert hkind
    decide
  rw [exit_other h m w herr hne]
  simp [statusTexts, delegateCalls, finalizeCalls]

/-- C4, the scenario of the spec: the input `5B` gives `reps = 5` and kind
braces, and `exit` then issues the one status message, with no delegate
invocation. -/
theorem non_word_kind_five_braces :
    feed (newTextObjectMode 0 1) [rune '5', rune 'B']
        = some ({ mode := 0, object := { inner := false, kind := textObjectBraces },
                  stage := textObjectStageChar2, err := none, outerReps := 1,
                  repChars := [rune '5'], reps := 5 }, [KeyEffect.setMode 0])
      ∧ (exit (demoHost 4)
            { mode := 0, object := { inner := false, kind := textObjectBraces },
              stage := textObjectStageChar2, err := none, outerReps := 1,
              repChars := [rune '5'], reps := 5 } 0).2
          = [Effect.setStatus "range conversion not implemented"]
      ∧ delegateCalls (exit (demoHost 4)
            { mode := 0, object := { inner := false, kind := textObjectBraces },
              stage := textObjectStageChar2, err := none, outerReps := 1,
              repChars := [rune '5'], reps := 5 } 0).2 = 0 :=
  ⟨by decide,
   (non_word_kind_not_implemented _ rfl (by decide) Nat Nat (demoHost 4) 0).1,
   (non_word_kind_not_implemented _ rfl (by decide) Nat Nat (demoHost 4) 0).2.2.1⟩

/-- C5: whenever a key `k` is processed by `case textObjectStageChar2`
(entered directly or by fallthrough), that `onKey` call requests restoration
of the stored mode exactly once; when `k` is in the kind table its kind is
recorded and the error field is left as it was, and when `k` is not in the
table the error is set to `ErrBadTextObject`. -/
theorem char2_always_restores_mode (m : TextObjectMode) (k : Rune)
    (hreach : reachesChar2 m k) :
    ∃ m1, onKey m k = some (m1, [KeyEffect.setMode m.mode])
      ∧ (∀ kind, textObjectKeyToType k = some kind →
            m1.object.kind = kind ∧ m1.err = m.err)
      ∧ (textObjectKeyToType k = none →
            m1.err = some ErrBadTextObject ∧ m1.object = m.object) := by
  rw [onKey_of_reachesChar2 m k hreach, onKey_char2 _ k (atChar2_stage m), atChar2_mode]
  cases hl : textObjectKeyToType k with
  | none =>
    refine ⟨_, rfl, ?_, ?_⟩
    · intro kind hkind; cases hkind
    · intro _; exact ⟨rfl, atChar2_object m⟩
  | some kd =>
    refine ⟨_, rfl, ?_, ?_⟩
    · intro kind hkind
      cases hkind
      exact ⟨rfl, atChar2_err m⟩
    · intro hn; cases hn

/-- C5 on a session already at stage Char2 that carries an error: the key `s`
restores mode 3 once, records kind sentence and leaves the error in place. -/
theorem char2_always_restores_mode_s :
    ∃ m1, onKey { newTextObjectMode 3 1 with
                    stage := textObjectStageChar2
                    err := some ErrBadTextObject } (rune 's')
        = some (m1, [KeyEffect.setMode 3])
      ∧ m1.object.kind = textObjectSentence ∧ m1.err = some ErrBadTextObject := by
  obtain ⟨m1, h1, h2, -⟩ := char2_always_restores_mode
    { newTextObjectMode 3 1 with
        stage := textObjectStageChar2
        err := some ErrBadTextObject } (rune 's') (by decide)
  exact ⟨m1, h1, h2 textObjectSentence (by decide)⟩

/-- The table read backwards: the key of a kind that a lookup returned. -/
theorem lookup_key_of_kind (ch : Rune) (kind : TextObjectKind)
    (h : textObjectKeyToType ch = some kind) :
    ch = (if kind = textObjectWord then rune 'w'
      else if kind = textObjectWhitespaceWord then rune 'W'
      else if kind = textObjectSentence then rune 's'
      else if kind = textObjectParagraph then rune 'p'
      else if kind = textObjectSection then rune 'S'
      else if kind = textObjectPercent then rune '%'
      else if kind = textObjectParens then rune 'b'
      else rune 'B') := by
  unfold textObjectKeyToType at h
  split_ifs at h with h1 h2 h3 h4 h5 h6 h7 h8 <;>
    simp only [Option.some.injEq, reduceCtorEq] at h <;> subst h <;> simp <;> assumption

/-- C6: the lookup succeeds exactly for the eight keys `w W s p S % b B`,
which map to word, whitespace-word, sentence, paragraph, section, percent,
parens and braces; distinct keys map to distinct kinds; every other rune,
rune 0 included, is a miss. -/
theorem kind_table_exact :
    (∀ ch : Rune, (textObjectKeyToType ch).isSome ↔ ch ∈ kindLetters)
    ∧ kindLetters.map textObjectKeyToType
        = [some textObjectWord, some textObjectWhitespaceWord, some textObjectSentence,
           some textObjectParagraph, some textObjectSection, some textObjectPercent,
           some textObjectParens, some textObjectBraces]
    ∧ (∀ (a b : Rune) (kind : TextObjectKind),
        textObjectKeyToType a = some kind → textObjectKeyToType b = some kind → a = b)
    ∧ (∀ ch : Rune, ch ∉ kindLetters → textObjectKeyToType ch = none)
    ∧ textObjectKeyToType 0 = none := by
  refine ⟨?_, by decide, ?_, fun ch h => (lookup_none_iff ch).mpr h, by decide⟩
  · intro ch
    rw [← not_iff_not, ← lookup_none_iff]
    cases textObjectKeyToType ch <;> simp
  · intro a b kind ha hb
    rw [lookup_key_of_kind a kind ha, lookup_key_of_kind b kind hb]


/-! ## Selector keys -/

theorem onKey_selector_i (m : TextObjectMode)
    (hs : m.stage = textObjectStageReps ∨ m.stage = textObjectStageChar1) :
    ∃ m1, onKey m (rune 'i') = some (m1, []) ∧ m1.object.inner = true
      ∧ m1.object.kind = m.object.kind ∧ m1.err = m.err
      ∧ m1.stage = textObjectStageChar1 := by
  rcases hs with h0 | h1
  · have hrej : ¬ ((rune '0' < rune 'i' ∧ rune 'i' ≤ rune '9')
        ∨ (rune 'i' = rune '0' ∧ m.repChars.length > 0)) := by simp
    rw [onKey_reps_reject m _ h0 hrej, onKey_char1_i _ rfl]
    exact ⟨_, rfl, rfl, rfl, rfl, rfl⟩
  · rw [onKey_char1_i m h1]
    exact ⟨_, rfl, rfl, rfl, rfl, h1⟩

theorem onKey_selector_a (m : TextObjectMode)
    (hs : m.stage = textObjectStageReps ∨ m.stage = textObjectStageChar1) :
    ∃ m1, onKey m (rune 'a') = some (m1, []) ∧ m1.object.inner = false
      ∧ m1.object.kind = m.object.kind ∧ m1.err = m.err
      ∧ m1.stage = textObjectStageChar1 := by
  rcases hs with h0 | h1
  · have hrej : ¬ ((rune '0' < rune 'a' ∧ rune 'a' ≤ rune '9')
        ∨ (rune 'a' = rune '0' ∧ m.repChars.length > 0)) := by simp
    rw [onKey_reps_reject m _ h0 hrej, onKey_char1_a _ rfl]
    exact ⟨_, rfl, rfl, rfl, rfl, rfl⟩
  · rw [onKey_char1_a m h1]
    exact ⟨_, rfl, rfl, rfl, rfl, h1⟩

theorem onKeyStages_reps_fall (m : TextObjectMode) (ch : Rune)
    (h : m.stage = textObjectStageReps)
    (hd : ¬ acceptsDigit m ch) (hi : ch ≠ rune 'i') (ha : ch ≠ rune 'a') :
    onKeyStages 3 m ch
      = [textObjectStageReps, textObjectStageChar1, textObjectStageChar2] := by
  unfold acceptsDigit at hd
  simp only [rune_0, rune_9, rune_i, rune_a] at hd hi ha
  simp [onKeyStages, onKeySwitch, h, hd, hi, ha]
  cases textObjectKeyToType ch <;> simp

theorem onKeyStages_char1_fall (m : TextObjectMode) (ch : Rune)
    (h : m.stage = textObjectStageChar1) (hi : ch ≠ rune 'i') (ha : ch ≠ rune 'a') :
    onKeyStages 3 m ch = [textObjectStageChar1, textObjectStageChar2] := by
  simp only [rune_i, rune_a] at hi ha
  simp [onKeyStages, onKeySwitch, h, hi, ha]
  cases textObjectKeyToType ch <;> simp

/-- C7: on a session at stage Reps or Char1, the key `i` sets `inner = true`
and the key `a` sets `inner = false`, with no mode-restoration request and
with kind and error left as they were; a key that is neither `i`, `a` nor a
digit accepted by stage Reps leaves `inner` unchanged (it is `false` on a
fresh session) and is looked up in the kind table by that same `onKey` call:
the switch reaches `case textObjectStageChar2`, the kind of a hit is recorded
and a miss sets the error. -/
theorem selector_sets_inner_else_falls_through (m : TextObjectMode)
    (hs : m.stage = textObjectStageReps ∨ m.stage = textObjectStageChar1) :
    (∃ m1, onKey m (rune 'i') = some (m1, []) ∧ m1.object.inner = true
        ∧ m1.object.kind = m.object.kind ∧ m1.err = m.err)
    ∧ (∃ m1, onKey m (rune 'a') = some (m1, []) ∧ m1.object.inner = false
        ∧ m1.object.kind = m.object.kind ∧ m1.err = m.err)
    ∧ (∀ k : Rune, k ≠ rune 'i' → k ≠ rune 'a' →
        ¬ (m.stage = textObjectStageReps ∧ acceptsDigit m k) →
        ∃ m1, onKey m k = some (m1, [KeyEffect.setMode m.mode])
          ∧ m1.object.inner = m.object.inner
          ∧ reachesChar2 m k
          ∧ (∀ kind, textObjectKeyToType k = some kind → m1.object.kind = kind)
          ∧ (textObjectKeyToType k = none → m1.err = some ErrBadTextObject))
    ∧ (∀ (mode : EditorMode) (O : Int), (newTextObjectMode mode O).object.inner = false) := by
  refine ⟨?_, ?_, ?_, fun _ _ => rfl⟩
  · obtain ⟨m1, h1, h2, h3, h4, -⟩ := onKey_selector_i m hs
    exact ⟨m1, h1, h2, h3, h4⟩
  · obtain ⟨m1, h1, h2, h3, h4, -⟩ := onKey_selector_a m hs
    exact ⟨m1, h1, h2, h3, h4⟩
  · intro k hi ha hacc
    have hreach : reachesChar2 m k := by
      unfold reachesChar2
      rcases hs with h0 | h1
      · rw [onKeyStages_reps_fall m k h0 (fun hd => hacc ⟨h0, hd⟩) hi ha]
        decide
      · rw [onKeyStages_char1_fall m k h1 hi ha]
        decide
    rw [onKey_of_reachesChar2 m k hreach, onKey_char2 _ k (atChar2_stage m)]
    simp only [atChar2_mode]
    cases hl : textObjectKeyToType k with
    | none =>
      refine ⟨_, rfl, ?_, hreach, ?_, fun _ => rfl⟩
      · show (atChar2 m).object.inner = _
        rw [atChar2_object]
      · intro kind hkind; cases hkind
    | some kd =>
      refine ⟨_, rfl, ?_, hreach, ?_, ?_⟩
      · show (atChar2 m).object.inner = _
        rw [atChar2_object]
      · intro kind hkind; cases hkind; rfl
      · intro hn; cases hn

/-- C7, the scenario of the spec: on a fresh session with outer count 2 the
key `i` sets `inner` and requests nothing, and `iw` ends with `reps = 1`,
`inner = true`, kind word. -/
theorem selector_sets_inner_iw :
    (∃ m1, onKey (newTextObjectMode 0 2) (rune 'i') = some (m1, [])
        ∧ m1.object.inner = true ∧ m1.object.kind = (newTextObjectMode 0 2).object.kind
        ∧ m1.err = (newTextObjectMode 0 2).err)
    ∧ feed (newTextObjectMode 0 2) [rune 'i', rune 'w']
        = some ({ mode := 0, object := { inner := true, kind := textObjectWord },
                  stage := textObjectStageChar2, err := none, outerReps := 2,
                  repChars := [], reps := 1 }, [KeyEffect.setMode 0]) :=
  ⟨(selector_sets_inner_else_falls_through (newTextObjectMode 0 2) (Or.inl rfl)).1, by decide⟩

/-- C8, the code at the failing input: a selector key leaves the stage at
Char1, so a second selector right after the first is consumed as a selector
again: `ii` requests no mode restoration and sets no error, and `iaw` is
accepted as the outer word object. -/
theorem second_selector_is_consumed :
    feed (newTextObjectMode 0 1) [rune 'i', rune 'i']
        = some ({ mode := 0, object := { inner := true, kind := 0 },
                  stage := textObjectStageChar1, err := none, outerReps := 1,
                  repChars := [], reps := 1 }, [])
    ∧ feed (newTextObjectMode 0 1) [rune 'i', rune 'a', rune 'w']
        = some ({ mode := 0, object := { inner := false, kind := textObjectWord },
                  stage := textObjectStageChar2, err := none, outerReps := 1,
                  repChars := [], reps := 1 }, [KeyEffect.setMode 0]) := by
  constructor <;> decide


/-- C9: at stage Reps with an empty digit buffer the key `0` is not appended:
in that same `onKey` call the count is resolved to 1, the switch passes
through the cases Reps, Char1 and Char2 in turn, and `0`, a miss of the kind
table, ends the parse with the error; with a non-empty digit buffer `0` is
appended and the call ends in `case textObjectStageReps`; so `10` followed by
a key that is not a digit yields `reps = 10`. -/
theorem leading_zero_is_not_a_count (m : TextObjectMode)
    (hs : m.stage = textObjectStageReps) :
    (m.repChars = [] →
        onKey m (rune '0')
            = some ({ m with reps := 1, stage := textObjectStageChar2,
                             err := some ErrBadTextObject }, [KeyEffect.setMode m.mode])
          ∧ onKeyStages 3 m (rune '0')
              = [textObjectStageReps, textObjectStageChar1, textObjectStageChar2])
    ∧ (m.repChars ≠ [] →
        onKey m (rune '0') = some ({ m with repChars := m.repChars ++ [rune '0'] }, [])
          ∧ onKeyStages 3 m (rune '0') = [textObjectStageReps])
    ∧ (∀ (mode : EditorMode) (O : Int) (k : Rune), ¬ isDigit k →
        ∃ m1 effs, feed (newTextObjectMode mode O) [rune '1', rune '0', k] = some (m1, effs)
          ∧ m1.repChars = [rune '1', rune '0'] ∧ m1.reps = 10) := by
  refine ⟨?_, ?_, ?_⟩
  · intro he
    have hd : ¬ acceptsDigit m (rune '0') := by
      unfold acceptsDigit
      simp [he]
    refine ⟨?_, onKeyStages_reps_fall m _ hs hd (by decide) (by decide)⟩
    rw [onKey_reps_fall m _ hs hd (by decide) (by decide), onKey_char2 _ _ rfl]
    have hl : textObjectKeyToType (rune '0') = none := by decide
    simp only [hl, he]
    rfl
  · intro hne
    have hd : (rune '0' < rune '0' ∧ rune '0' ≤ rune '9')
        ∨ (rune '0' = rune '0' ∧ m.repChars.length > 0) :=
      Or.inr ⟨rfl, List.length_pos.mpr hne⟩
    refine ⟨onKey_reps_accept m _ hs hd, ?_⟩
    have hlen : 0 < m.repChars.length := List.length_pos.mpr hne
    simp [onKeyStages, onKeySwitch, hs, hlen]
  · intro mode O k hk
    obtain ⟨m1, effs, h1, h2⟩ := feed_count_then_key mode O [rune '1', rune '0'] k
      (Or.inl (by decide))
      (by
        intro h
        apply hk
        simp only [isDigit, rune_0, rune_1, rune_9] at h ⊢
        unfold Rune at *
        omega)
      (by
        intro h
        exfalso
        apply hk
        rw [h]
        decide)
    refine ⟨m1, effs, h1, h2.1, ?_⟩
    rw [h2.2]
    decide

/-- C9 on a fresh session: `0` as first key is looked up as a kind letter (a
miss), and is not kept as a digit. -/
theorem leading_zero_on_fresh_session :
    onKey (newTextObjectMode 0 1) (rune '0')
        = some ({ mode := 0, object := { inner := false, kind := 0 },
                  stage := textObjectStageChar2, err := some ErrBadTextObject,
                  outerReps := 1, repChars := [], reps := 1 }, [KeyEffect.setMode 0])
      ∧ onKeyStages 3 (newTextObjectMode 0 1) (rune '0')
          = [textObjectStageReps, textObjectStageChar1, textObjectStageChar2] :=
  (leading_zero_is_not_a_count (newTextObjectMode 0 1) rfl).1 rfl


/-- The word loop is a sequence of repetitions, one per iteration. -/
theorem exitWordLoop_blocks {W C : Type} (h : Host W C) (n : Nat) (w : W) :
    ∃ blocks : List (List (Effect C)),
      (exitWordLoop h n w).2 = blocks.flatten
      ∧ blocks.length = n
      ∧ ∀ b ∈ blocks, isRepetition h b := by
  induction n generalizing w with
  | zero => exact ⟨[], by simp [exitWordLoop], rfl, by simp⟩
  | succ n ih =>
    obtain ⟨bs, h1, h2, h3⟩ := ih
      (h.f (if (h.nextWord w (h.cursor w)).2 then w else h.ctxSetStatus w "End of buffer")
        (h.cursor w) (h.nextWord w (h.cursor w)).1)
    refine ⟨([Effect.nextWord (h.cursor w) (h.nextWord w (h.cursor w)).2]
        ++ (if (h.nextWord w (h.cursor w)).2 then []
            else [Effect.ctxSetStatus "End of buffer"])
        ++ [Effect.rangeFunc (h.cursor w) (h.nextWord w (h.cursor w)).1]) :: bs,
      ?_, by simp [h2], ?_⟩
    · rw [exitWordLoop_succ, h1, List.flatten_cons]
    · intro b hb
      rcases List.mem_cons.mp hb with rfl | hb
      · exact ⟨w, rfl⟩
      · exact h3 b hb

/-- C10: in `exit` for the word kind a failed `NextWord` is not fatal.  The
calls of `exit` are one block per repetition followed by one finalize call;
each block is the `NextWord` query, the "End of buffer" status exactly when
the query returned false, and the delegate invoked on `(from, to)` either
way; and the number of blocks, hence of delegate invocations, is the loop
bound whatever the host (so whatever the outcomes of `NextWord`). -/
theorem end_of_buffer_is_not_fatal {W C : Type} (h : Host W C) (m : TextObjectMode) (w : W)
    (herr : m.err = none) (hkind : m.object.kind = textObjectWord) :
    (∃ blocks : List (List (Effect C)),
        (exit h m w).2 = blocks.flatten ++ [Effect.finalizeActionGroup]
        ∧ blocks.length = (mulInt m.reps m.outerReps).toNat
        ∧ ∀ b ∈ blocks, isRepetition h b)
    ∧ delegateCalls (exit h m w).2 = (mulInt m.reps m.outerReps).toNat
    ∧ finalizeCalls (exit h m w).2 = 1
    ∧ (∀ (W2 C2 : Type) (h2 : Host W2 C2) (w2 : W2),
        delegateCalls (exit h2 m w2).2 = delegateCalls (exit h m w).2) := by
  have hcount : ∀ (W2 C2 : Type) (h2 : Host W2 C2) (w2 : W2),
      delegateCalls (exit h2 m w2).2 = (mulInt m.reps m.outerReps).toNat := by
    intro W2 C2 h2 w2
    rw [exit_word h2 m w2 herr hkind, delegateCalls_append, exitWordLoop_delegateCalls]
    simp [delegateCalls]
  refine ⟨?_, hcount W C h w, ?_, ?_⟩
  · obtain ⟨bs, h1, h2, h3⟩ := exitWordLoop_blocks h (mulInt m.reps m.outerReps).toNat w
    exact ⟨bs, by rw [exit_word h m w herr hkind, h1], h2, h3⟩
  · rw [exit_word h m w herr hkind, finalizeCalls_append, exitWordLoop_finalizeCalls]
    simp [finalizeCalls]
  · intro W2 C2 h2 w2
    rw [hcount W2 C2 h2 w2, hcount W C h w]

/-- C10 on a buffer whose last word boundary is one step away: of three
repetitions the second and third fail to advance, each reports "End of
buffer", and the delegate is still invoked three times before the finalize
call. -/
theorem end_of_buffer_three_repetitions :
    (exit (demoHost 1)
        { mode := 0, object := { inner := false, kind := textObjectWord },
          stage := textObjectStageChar2, err := none, outerReps := 1,
          repChars := [rune '3'], reps := 3 } 0).2
      = [Effect.nextWord 0 true, Effect.rangeFunc 0 1,
         Effect.nextWord 1 false, Effect.ctxSetStatus "End of buffer", Effect.rangeFunc 1 1,
         Effect.nextWord 1 false, Effect.ctxSetStatus "End of buffer", Effect.rangeFunc 1 1,
         Effect.finalizeActionGroup]
    ∧ delegateCalls (exit (demoHost 1)
        { mode := 0, object := { inner := false, kind := textObjectWord },
          stage := textObjectStageChar2, err := none, outerReps := 1,
          repChars := [rune '3'], reps := 3 } 0).2 = 3 := by
  refine ⟨by decide, ?_⟩
  rw [(end_of_buffer_is_not_fatal (demoHost 1) _ 0 rfl rfl).2.1]
  decide


/-! ## Every outcome of one `onKey` call -/

theorem atChar2_outerReps (m : TextObjectMode) : (atChar2 m).outerReps = m.outerReps := by
  unfold atChar2; split <;> rfl

theorem atChar2_repChars (m : TextObjectMode) : (atChar2 m).repChars = m.repChars := by
  unfold atChar2; split <;> rfl

theorem atChar2_reps (m : TextObjectMode) :
    (atChar2 m).reps
      = if m.stage = textObjectStageReps then parseReps m.repChars else m.reps := by
  unfold atChar2; split <;> rfl

theorem reachesChar2_of_reps (m : TextObjectMode) (ch : Rune)
    (h : m.stage = textObjectStageReps)
    (hd : ¬ acceptsDigit m ch) (hi : ch ≠ rune 'i') (ha : ch ≠ rune 'a') :
    reachesChar2 m ch := by
  unfold reachesChar2
  rw [onKeyStages_reps_fall m ch h hd hi ha]
  decide

theorem reachesChar2_of_char1 (m : TextObjectMode) (ch : Rune)
    (h : m.stage = textObjectStageChar1) (hi : ch ≠ rune 'i') (ha : ch ≠ rune 'a') :
    reachesChar2 m ch := by
  unfold reachesChar2
  rw [onKeyStages_char1_fall m ch h hi ha]
  decide

theorem reachesChar2_of_char2 (m : TextObjectMode) (ch : Rune)
    (h : m.stage = textObjectStageChar2) : reachesChar2 m ch := by
  unfold reachesChar2
  simp [onKeyStages, onKeySwitch, h]
  cases textObjectKeyToType ch <;> simp

/-- What a call that reaches `case textObjectStageChar2` returns. -/
theorem onKey_reaching_char2 (m : TextObjectMode) (ch : Rune) (h : reachesChar2 m ch) :
    (∃ kind, textObjectKeyToType ch = some kind
        ∧ onKey m ch = some ({ atChar2 m with object := { m.object with kind := kind } },
            [KeyEffect.setMode m.mode]))
    ∨ (textObjectKeyToType ch = none
        ∧ onKey m ch = some ({ atChar2 m with err := some ErrBadTextObject },
            [KeyEffect.setMode m.mode])) := by
  rw [onKey_of_reachesChar2 m ch h, onKey_char2 _ ch (atChar2_stage m)]
  cases hl : textObjectKeyToType ch with
  | none =>
    right
    refine ⟨rfl, ?_⟩
    simp only [atChar2_mode]
  | some kd =>
    left
    refine ⟨kd, rfl, ?_⟩
    simp only [atChar2_mode, atChar2_object]

/-- The five ways a call of `onKey` can end. -/
theorem onKey_cases (m : TextObjectMode) (ch : Rune) :
    (m.stage = textObjectStageReps ∧ acceptsDigit m ch
        ∧ onKey m ch = some ({ m with repChars := m.repChars ++ [ch] }, []))
    ∨ (m.stage = textObjectStageReps ∧ ¬ acceptsDigit m ch ∧ (ch = rune 'i' ∨ ch = rune 'a')
        ∧ onKey m ch = some ({ m with
            reps := parseReps m.repChars
            stage := textObjectStageChar1
            object := { m.object with inner := decide (ch = rune 'i') } }, []))
    ∨ (m.stage = textObjectStageChar1 ∧ (ch = rune 'i' ∨ ch = rune 'a')
        ∧ onKey m ch = some ({ m with
            object := { m.object with inner := decide (ch = rune 'i') } }, []))
    ∨ reachesChar2 m ch
    ∨ (m.stage ≠ textObjectStageReps ∧ m.stage ≠ textObjectStageChar1
        ∧ m.stage ≠ textObjectStageChar2 ∧ onKey m ch = some (m, [])) := by
  by_cases h0 : m.stage = textObjectStageReps
  · by_cases hd : acceptsDigit m ch
    · exact Or.inl ⟨h0, hd, onKey_reps_accept m ch h0 hd⟩
    by_cases hi : ch = rune 'i'
    · right; left
      refine ⟨h0, hd, Or.inl hi, ?_⟩
      subst hi
      rw [onKey_reps_reject m _ h0 hd, onKey_char1_i _ rfl]
      rfl
    by_cases ha : ch = rune 'a'
    · right; left
      refine ⟨h0, hd, Or.inr ha, ?_⟩
      subst ha
      rw [onKey_reps_reject m _ h0 hd, onKey_char1_a _ rfl]
      rfl
    exact Or.inr (Or.inr (Or.inr (Or.inl (reachesChar2_of_reps m ch h0 hd hi ha))))
  by_cases h1 : m.stage = textObjectStageChar1
  · by_cases hi : ch = rune 'i'
    · right; right; left
      refine ⟨h1, Or.inl hi, ?_⟩
      subst hi
      rw [onKey_char1_i m h1]
      rfl
    by_cases ha : ch = rune 'a'
    · right; right; left
      refine ⟨h1, Or.inr ha, ?_⟩
      subst ha
      rw [onKey_char1_a m h1]
      rfl
    exact Or.inr (Or.inr (Or.inr (Or.inl (reachesChar2_of_char1 m ch h1 hi ha))))
  by_cases h2 : m.stage = textObjectStageChar2
  · exact Or.inr (Or.inr (Or.inr (Or.inl (reachesChar2_of_char2 m ch h2))))
  · refine Or.inr (Or.inr (Or.inr (Or.inr ⟨h0, h1, h2, ?_⟩)))
    simp [onKey, onKeyLoop, onKeySwitch, h0, h1, h2]


/-- What every call of `onKey` preserves: it returns; the stored mode and the
outer count are never written; an error that is set stays set; the stage does
not decrease; and outside stage Reps the digit buffer and `reps` are not
written and the stage does not return to Reps. -/
theorem onKey_frame (m : TextObjectMode) (ch : Rune) :
    ∃ m1 effs, onKey m ch = some (m1, effs)
      ∧ m1.mode = m.mode ∧ m1.outerReps = m.outerReps
      ∧ (m.err ≠ none → m1.err ≠ none)
      ∧ m.stage ≤ m1.stage
      ∧ (m.stage ≠ textObjectStageReps →
          m1.repChars = m.repChars ∧ m1.reps = m.reps ∧ m1.stage ≠ textObjectStageReps) := by
  rcases onKey_cases m ch with ⟨h0, -, h⟩ | ⟨h0, -, -, h⟩ | ⟨h1, -, h⟩ | hr | ⟨h0, h1, h2, h⟩
  · refine ⟨_, _, h, rfl, rfl, fun he => he, le_refl _, fun hn => absurd h0 hn⟩
  · refine ⟨_, _, h, rfl, rfl, fun he => he, ?_, fun hn => absurd h0 hn⟩
    show m.stage ≤ textObjectStageChar1
    rw [h0]
    decide
  · refine ⟨_, _, h, rfl, rfl, fun he => he, le_refl _, fun hn => ⟨rfl, rfl, hn⟩⟩
  · have hst : m.stage ≤ textObjectStageChar2 := by
      rcases reachesChar2_cases m ch hr with h2 | ⟨h1, -⟩ | ⟨h0, -⟩
      · rw [h2]
      · rw [h1]; decide
      · rw [h0]; decide
    have hreps : m.stage ≠ textObjectStageReps → (atChar2 m).reps = m.reps := by
      intro hn
      rw [atChar2_reps, if_neg hn]
    rcases onKey_reaching_char2 m ch hr with ⟨kind, -, h⟩ | ⟨-, h⟩
    · refine ⟨_, _, h, atChar2_mode m, atChar2_outerReps m, ?_, ?_, ?_⟩
      · intro he
        show (atChar2 m).err ≠ none
        rw [atChar2_err]
        exact he
      · show m.stage ≤ (atChar2 m).stage
        rw [atChar2_stage]
        exact hst
      · intro hn
        refine ⟨atChar2_repChars m, hreps hn, ?_⟩
        show (atChar2 m).stage ≠ textObjectStageReps
        rw [atChar2_stage]
        decide
    · refine ⟨_, _, h, atChar2_mode m, atChar2_outerReps m, ?_, ?_, ?_⟩
      · intro _
        show some ErrBadTextObject ≠ none
        exact Option.some_ne_none _
      · show m.stage ≤ (atChar2 m).stage
        rw [atChar2_stage]
        exact hst
      · intro hn
        refine ⟨atChar2_repChars m, hreps hn, ?_⟩
        show (atChar2 m).stage ≠ textObjectStageReps
        rw [atChar2_stage]
        decide
  · exact ⟨_, _, h, rfl, rfl, fun he => he, le_refl _, fun hn => ⟨rfl, rfl, hn⟩⟩

/-- The input loop returns for every key sequence, and an error that is set
stays set across it. -/
theorem feed_keeps_error (ks : List Rune) (m : TextObjectMode) :
    ∃ m1 effs, feed m ks = some (m1, effs) ∧ (m.err ≠ none → m1.err ≠ none) := by
  induction ks generalizing m with
  | nil => exact ⟨m, [], rfl, fun h => h⟩
  | cons k ks ih =>
    obtain ⟨m1, e1, h1, -, -, herr, -⟩ := onKey_frame m k
    obtain ⟨m2, e2, h2, herr2⟩ := ih m1
    refine ⟨m2, e1 ++ e2, ?_, fun h => herr2 (herr h)⟩
    rw [feed_cons m m1 e1 k ks h1, h2]
    rfl

/-- C11: once the session error is set it stays set under every further
sequence of keys (a valid kind letter included), and `exit` on the resulting
session, for every host, makes one call only, the status report of the
error: no `NextWord` call, no delegate invocation, no finalize call. -/
theorem error_is_absorbing (m : TextObjectMode) (ks : List Rune) (herr : m.err ≠ none) :
    ∃ m1 effs e, feed m ks = some (m1, effs) ∧ m1.err = some e
      ∧ ∀ (W C : Type) (h : Host W C) (w : W),
          (exit h m1 w).2 = [Effect.setStatus e.msg]
          ∧ nextWordCalls (exit h m1 w).2 = 0
          ∧ delegateCalls (exit h m1 w).2 = 0
          ∧ finalizeCalls (exit h m1 w).2 = 0 := by
  obtain ⟨m1, effs, h1, h2⟩ := feed_keeps_error ks m
  have hne := h2 herr
  cases he : m1.err with
  | none => exact absurd he hne
  | some e =>
    refine ⟨m1, effs, e, h1, he, ?_⟩
    intro W C h w
    rw [exit_err h m1 w e he]
    simp [nextWordCalls, delegateCalls, finalizeCalls]

/-- C11 on the session left by the bad key `q`: the keys `3`, `i`, `w` that
follow, the last a valid kind letter, leave the error in place, and `exit`
only reports "bad text object". -/
theorem error_is_absorbing_after_q :
    ∃ m1 effs, feed { newTextObjectMode 0 1 with
                        reps := 1
                        stage := textObjectStageChar2
                        err := some ErrBadTextObject } [rune '3', rune 'i', rune 'w']
        = some (m1, effs)
      ∧ m1.err = some ErrBadTextObject
      ∧ (exit (demoHost 4) m1 0).2 = [Effect.setStatus "bad text object"] := by
  obtain ⟨m1, effs, e, h1, h2, h3⟩ := error_is_absorbing
    { newTextObjectMode 0 1 with
        reps := 1
        stage := textObjectStageChar2
        err := some ErrBadTextObject } [rune '3', rune 'i', rune 'w'] (by decide)
  have hm : feed { newTextObjectMode 0 1 with
                        reps := 1
                        stage := textObjectStageChar2
                        err := some ErrBadTextObject } [rune '3', rune 'i', rune 'w']
      = some ({ mode := 0, object := { inner := false, kind := textObjectWord },
                stage := textObjectStageChar2, err := some ErrBadTextObject,
                outerReps := 1, repChars := [], reps := 1 },
              [KeyEffect.setMode 0, KeyEffect.setMode 0, KeyEffect.setMode 0]) := by decide
  rw [hm] at h1
  cases h1
  cases h2
  exact ⟨_, _, hm, rfl, (h3 Nat Nat (demoHost 4) 0).1⟩


/-- The wrapped product with a zero factor is zero. -/
theorem mulInt_zero_left (b : Int) : mulInt 0 b = 0 := by
  unfold mulInt
  rw [Int.zero_mul]
  decide

/-- C12, amended: for every key sequence made of accepted digits only (the
empty sequence or a count matching `[1-9][0-9]*`) fed to a fresh session, no
`onKey` call requests mode restoration, the stage is still Reps, and `exit`
on the resulting session, for every host, invokes the delegate zero times:
its only call is the finalize call. -/
theorem exit_after_digits_only (mode : EditorMode) (O : Int) (D : List Rune)
    (hD : isCount D = true ∨ D = []) :
    ∃ m, feed (newTextObjectMode mode O) D = some (m, [])
      ∧ m.stage = textObjectStageReps
      ∧ ∀ (W C : Type) (h : Host W C) (w : W),
          (exit h m w).2 = [Effect.finalizeActionGroup]
          ∧ delegateCalls (exit h m w).2 = 0 := by
  refine ⟨_, feed_count mode O D hD, rfl, ?_⟩
  intro W C h w
  have hz : (mulInt ({ newTextObjectMode mode O with repChars := D }).reps
      ({ newTextObjectMode mode O with repChars := D }).outerReps).toNat = 0 := by
    show (mulInt 0 O).toNat = 0
    rw [mulInt_zero_left]
    rfl
  have ht : (exit h { newTextObjectMode mode O with repChars := D } w).2
      = [Effect.finalizeActionGroup] := by
    rw [exit_word h _ w rfl rfl, hz]
    rfl
  rw [ht]
  exact ⟨rfl, by simp [delegateCalls]⟩

/-- C12 on the digits `12` with outer count 2: nothing is requested of the
editor and `exit` invokes no delegate. -/
theorem exit_after_digits_only_twelve :
    ∃ m, feed (newTextObjectMode 0 2) [rune '1', rune '2'] = some (m, [])
      ∧ m.stage = textObjectStageReps
      ∧ delegateCalls (exit (demoHost 4) m 0).2 = 0 := by
  obtain ⟨m, h1, h2, h3⟩ :=
    exit_after_digits_only 0 2 [rune '1', rune '2'] (Or.inl (by decide))
  exact ⟨m, h1, h2, (h3 Nat Nat (demoHost 4) 0).2⟩

/-- C12 as stated fails on digits followed by a selector: with outer count 1
the keys `3`, `i` request no mode restoration (the parse has not completed
stage Char2), yet the session holds `reps = 3`, no error and kind 0, which is
the word kind, so `exit` invokes the delegate three times. -/
theorem exit_after_count_and_selector_mutates :
    feed (newTextObjectMode 0 1) [rune '3', rune 'i']
        = some ({ mode := 0, object := { inner := true, kind := textObjectWord },
                  stage := textObjectStageChar1, err := none, outerReps := 1,
                  repChars := [rune '3'], reps := 3 }, [])
    ∧ (exit (demoHost 4)
          { mode := 0, object := { inner := true, kind := textObjectWord },
            stage := textObjectStageChar1, err := none, outerReps := 1,
            repChars := [rune '3'], reps := 3 } 0).2
        = [Effect.nextWord 0 true, Effect.rangeFunc 0 1,
           Effect.nextWord 1 true, Effect.rangeFunc 1 2,
           Effect.nextWord 2 true, Effect.rangeFunc 2 3,
           Effect.finalizeActionGroup]
    ∧ delegateCalls (exit (demoHost 4)
          { mode := 0, object := { inner := true, kind := textObjectWord },
            stage := textObjectStageChar1, err := none, outerReps := 1,
            repChars := [rune '3'], reps := 3 } 0).2 = 3 := by
  refine ⟨by decide, by decide, by decide⟩

/-- C13, amended: a session freshly built by `newTextObjectMode` has stage
Reps, `inner = false`, no error, the given outer count, an empty digit buffer
and `reps = 0`, and its kind field holds the zero value of `textObjectKind`,
which is `textObjectWord`, the kind of the key `w`. -/
theorem fresh_session_fields (mode : EditorMode) (n : Int) :
    (newTextObjectMode mode n).stage = textObjectStageReps
    ∧ (newTextObjectMode mode n).object.inner = false
    ∧ (newTextObjectMode mode n).err = none
    ∧ (newTextObjectMode mode n).outerReps = n
    ∧ (newTextObjectMode mode n).mode = mode
    ∧ (newTextObjectMode mode n).repChars = []
    ∧ (newTextObjectMode mode n).reps = 0
    ∧ (newTextObjectMode mode n).object.kind = textObjectWord
    ∧ textObjectKeyToType (rune 'w') = some (newTextObjectMode mode n).object.kind :=
  ⟨rfl, rfl, rfl, rfl, rfl, rfl, rfl, rfl, rfl⟩

/-- C13 as stated fails: the kind of a fresh session is not distinct from the
eight kinds of the table, it equals `textObjectWord`, and the lookup of `w`
returns exactly it. -/
theorem fresh_session_kind_is_word :
    (newTextObjectMode 0 1).object.kind = textObjectWord
    ∧ some (newTextObjectMode 0 1).object.kind ∈ kindLetters.map textObjectKeyToType := by
  constructor <;> decide


/-! ## Passes through the switch -/

/-- The stages at which the switch is entered during one call: one of seven
lists, each strictly increasing and of length at most three. -/
theorem onKeyStages_cases (m : TextObjectMode) (ch : Rune) :
    onKeyStages 3 m ch = [m.stage]
    ∨ (m.stage = textObjectStageReps
        ∧ onKeyStages 3 m ch = [textObjectStageReps, textObjectStageChar1])
    ∨ (m.stage = textObjectStageReps
        ∧ onKeyStages 3 m ch
            = [textObjectStageReps, textObjectStageChar1, textObjectStageChar2])
    ∨ (m.stage = textObjectStageChar1
        ∧ onKeyStages 3 m ch = [textObjectStageChar1, textObjectStageChar2]) := by
  by_cases h0 : m.stage = textObjectStageReps
  · by_cases hd : acceptsDigit m ch
    · left
      have hd2 := hd
      unfold acceptsDigit at hd2
      simp only [rune_0, rune_9] at hd2
      simp [onKeyStages, onKeySwitch, h0, hd2]
    have hd2 := hd
    unfold acceptsDigit at hd2
    simp only [rune_0, rune_9] at hd2
    by_cases hi : ch = rune 'i'
    · right; left
      refine ⟨h0, ?_⟩
      subst hi
      simp [onKeyStages, onKeySwitch, h0]
    by_cases ha : ch = rune 'a'
    · right; left
      refine ⟨h0, ?_⟩
      subst ha
      simp [onKeyStages, onKeySwitch, h0]
    exact Or.inr (Or.inr (Or.inl ⟨h0, onKeyStages_reps_fall m ch h0 hd hi ha⟩))
  by_cases h1 : m.stage = textObjectStageChar1
  · by_cases hi : ch = rune 'i'
    · left
      subst hi
      simp [onKeyStages, onKeySwitch, h1]
    by_cases ha : ch = rune 'a'
    · left
      subst ha
      simp [onKeyStages, onKeySwitch, h1]
    exact Or.inr (Or.inr (Or.inr ⟨h1, onKeyStages_char1_fall m ch h1 hi ha⟩))
  by_cases h2 : m.stage = textObjectStageChar2
  · left
    simp [onKeyStages, onKeySwitch, h2]
    cases textObjectKeyToType ch <;> simp
  · left
    simp [onKeyStages, onKeySwitch, h0, h1, h2]

/-- More than three passes are never used: the result of the loop is the
same for every bound from three on. -/
theorem onKeyLoop_fuel (n : Nat) (m : TextObjectMode) (ch : Rune) :
    onKeyLoop (n + 3) m ch = onKeyLoop 3 m ch := by
  by_cases h0 : m.stage = textObjectStageReps
  · by_cases hd : (48 < ch ∧ ch ≤ 57) ∨ (ch = 48 ∧ 0 < m.repChars.length)
    · simp [onKeyLoop, onKeySwitch, h0, hd]
    by_cases hi : ch = 105
    · subst hi
      simp [onKeyLoop, onKeySwitch, h0]
    by_cases ha : ch = 97
    · subst ha
      simp [onKeyLoop, onKeySwitch, h0]
    simp [onKeyLoop, onKeySwitch, h0, hd, hi, ha]
    cases textObjectKeyToType ch <;> simp
  by_cases h1 : m.stage = textObjectStageChar1
  · by_cases hi : ch = 105
    · subst hi
      simp [onKeyLoop, onKeySwitch, h1]
    by_cases ha : ch = 97
    · subst ha
      simp [onKeyLoop, onKeySwitch, h1]
    simp [onKeyLoop, onKeySwitch, h1, hi, ha]
    cases textObjectKeyToType ch <;> simp
  by_cases h2 : m.stage = textObjectStageChar2
  · simp [onKeyLoop, onKeySwitch, h2]
    cases textObjectKeyToType ch <;> simp
  · simp [onKeyLoop, onKeySwitch, h0, h1, h2]

theorem onKeyStages_fuel (n : Nat) (m : TextObjectMode) (ch : Rune) :
    onKeyStages (n + 3) m ch = onKeyStages 3 m ch := by
  by_cases h0 : m.stage = textObjectStageReps
  · by_cases hd : (48 < ch ∧ ch ≤ 57) ∨ (ch = 48 ∧ 0 < m.repChars.length)
    · simp [onKeyStages, onKeySwitch, h0, hd]
    by_cases hi : ch = 105
    · subst hi
      simp [onKeyStages, onKeySwitch, h0]
    by_cases ha : ch = 97
    · subst ha
      simp [onKeyStages, onKeySwitch, h0]
    simp [onKeyStages, onKeySwitch, h0, hd, hi, ha]
    cases textObjectKeyToType ch <;> simp
  by_cases h1 : m.stage = textObjectStageChar1
  · by_cases hi : ch = 105
    · subst hi
      simp [onKeyStages, onKeySwitch, h1]
    by_cases ha : ch = 97
    · subst ha
      simp [onKeyStages, onKeySwitch, h1]
    simp [onKeyStages, onKeySwitch, h1, hi, ha]
    cases textObjectKeyToType ch <;> simp
  by_cases h2 : m.stage = textObjectStageChar2
  · simp [onKeyStages, onKeySwitch, h2]
    cases textObjectKeyToType ch <;> simp
  · simp [onKeyStages, onKeySwitch, h0, h1, h2]

/-- A pass that ends in `goto loop` has raised the stage by one. -/
theorem onKeySwitch_goto (m m2 : TextObjectMode) (ch : Rune) (e : List KeyEffect)
    (h : onKeySwitch m ch = (m2, e, true)) :
    m.stage < m2.stage ∧ m2.stage = m.stage + 1 := by
  unfold onKeySwitch at h
  split_ifs at h with h0 hd h1 hi ha h2
  · simp at h
  · simp only [Prod.mk.injEq] at h
    rw [← h.1, h0]
    exact ⟨show (0 : Int) < 1 by decide, show (1 : Int) = 0 + 1 by decide⟩
  · simp at h
  · simp at h
  · simp only [Prod.mk.injEq] at h
    rw [← h.1, h1]
    exact ⟨show (1 : Int) < 2 by decide, show (2 : Int) = 1 + 1 by decide⟩
  · cases hl : textObjectKeyToType ch <;> rw [hl] at h <;> simp at h
  · simp at h


/-- C14: every `onKey` call returns after at most three passes through the
switch (at most two `goto loop` jumps): a larger bound on the passes changes
neither the result nor the list of stages entered; the stages entered are
strictly increasing, each pass that ends in `goto loop` raises the stage, and
the stage after the call is at least the stage before it. -/
theorem onKey_three_passes_stage_monotone (m : TextObjectMode) (ch : Rune) :
    (∃ m1 effs, onKey m ch = some (m1, effs) ∧ m.stage ≤ m1.stage)
    ∧ 1 ≤ (onKeyStages 3 m ch).length ∧ (onKeyStages 3 m ch).length ≤ 3
    ∧ (onKeyStages 3 m ch).Pairwise (fun s t => s < t)
    ∧ (∀ n : Nat, onKeyLoop (n + 3) m ch = onKey m ch
        ∧ onKeyStages (n + 3) m ch = onKeyStages 3 m ch)
    ∧ (∀ (m2 : TextObjectMode) (e : List KeyEffect),
        onKeySwitch m ch = (m2, e, true) → m.stage < m2.stage) := by
  refine ⟨?_, ?_, ?_, ?_, ?_, ?_⟩
  · obtain ⟨m1, effs, h1, -, -, -, h2, -⟩ := onKey_frame m ch
    exact ⟨m1, effs, h1, h2⟩
  · rcases onKeyStages_cases m ch with h | ⟨-, h⟩ | ⟨-, h⟩ | ⟨-, h⟩ <;> rw [h] <;> simp
  · rcases onKeyStages_cases m ch with h | ⟨-, h⟩ | ⟨-, h⟩ | ⟨-, h⟩ <;> rw [h] <;> simp
  · rcases onKeyStages_cases m ch with h | ⟨-, h⟩ | ⟨-, h⟩ | ⟨-, h⟩ <;> rw [h] <;> simp
  · intro n
    exact ⟨onKeyLoop_fuel n m ch, onKeyStages_fuel n m ch⟩
  · intro m2 e h
    exact (onKeySwitch_goto m m2 ch e h).1

/-! ## The digit buffer -/

/-- C16: on a session at stage Char1 or Char2 every key leaves the digit
buffer, `reps` and the outer count unchanged; a digit key arriving there is
not counted: the same call looks it up in the kind table, where it misses,
so the error is set and mode restoration is requested. -/
theorem count_is_frozen_after_reps (m : TextObjectMode) (k : Rune)
    (hs : m.stage = textObjectStageChar1 ∨ m.stage = textObjectStageChar2) :
    ∃ m1 effs, onKey m k = some (m1, effs)
      ∧ m1.repChars = m.repChars ∧ m1.reps = m.reps ∧ m1.outerReps = m.outerReps
      ∧ (isDigit k →
          reachesChar2 m k ∧ textObjectKeyToType k = none
          ∧ effs = [KeyEffect.setMode m.mode] ∧ m1.err = some ErrBadTextObject) := by
  have hn : m.stage ≠ textObjectStageReps := by
    rcases hs with h | h <;> rw [h] <;> decide
  obtain ⟨m1, effs, h1, -, hO, -, -, hfix⟩ := onKey_frame m k
  refine ⟨m1, effs, h1, (hfix hn).1, (hfix hn).2.1, hO, ?_⟩
  intro hd
  have hmiss := lookup_digit k hd
  have hi : k ≠ rune 'i' := by
    rintro rfl
    revert hd
    decide
  have ha : k ≠ rune 'a' := by
    rintro rfl
    revert hd
    decide
  have hreach : reachesChar2 m k := by
    rcases hs with h | h
    · exact reachesChar2_of_char1 m k h hi ha
    · exact reachesChar2_of_char2 m k h
  rcases onKey_reaching_char2 m k hreach with ⟨kind, hk, -⟩ | ⟨-, h2⟩
  · rw [hmiss] at hk
    cases hk
  · rw [h2] at h1
    cases h1
    exact ⟨hreach, hmiss, rfl, rfl⟩

/-- C16, the example of the claim: after `i` the key `3` is not counted
(`reps` stays 1, the buffer stays empty) and sets the error, and the whole
input `i3w` ends in the error state. -/
theorem count_is_frozen_i3w :
    (∃ m1, onKey { newTextObjectMode 0 1 with
                      reps := 1
                      stage := textObjectStageChar1
                      object := { inner := true, kind := 0 } } (rune '3')
          = some (m1, [KeyEffect.setMode 0])
        ∧ m1.repChars = [] ∧ m1.reps = 1 ∧ m1.err = some ErrBadTextObject)
    ∧ feed (newTextObjectMode 0 1) [rune 'i', rune '3', rune 'w']
        = some ({ mode := 0, object := { inner := true, kind := textObjectWord },
                  stage := textObjectStageChar2, err := some ErrBadTextObject,
                  outerReps := 1, repChars := [], reps := 1 },
                [KeyEffect.setMode 0, KeyEffect.setMode 0]) := by
  refine ⟨?_, by decide⟩
  obtain ⟨m1, effs, h1, h2, h3, -, h4⟩ := count_is_frozen_after_reps
    { newTextObjectMode 0 1 with
        reps := 1
        stage := textObjectStageChar1
        object := { inner := true, kind := 0 } } (rune '3') (Or.inl rfl)
  obtain ⟨-, -, h5, h6⟩ := h4 (by decide)
  rw [h5] at h1
  exact ⟨m1, h1, h2, h3, h6⟩

/-! ## The ranges handed to the delegate -/

theorem exitWordLoop_unfold {W C : Type} (h : Host W C) (n : Nat) (w : W) :
    (exitWordLoop h (n + 1) w).2
        = repetitionCalls h w ++ (exitWordLoop h n (afterRepetition h w)).2
    ∧ (exitWordLoop h (n + 1) w).1 = (exitWordLoop h n (afterRepetition h w)).1 := by
  constructor
  · rw [exitWordLoop_succ]
    simp [repetitionCalls, afterRepetition]
  · simp [exitWordLoop, afterRepetition]

/-- When the delegate and the status call leave the cursor and the word
boundaries as they are, every repetition makes the same calls and the cursor
ends where it started. -/
theorem exitWordLoop_same_range {W C : Type} (h : Host W C)
    (hf : ∀ w a b, h.cursor (h.f w a b) = h.cursor w ∧ h.nextWord (h.f w a b) = h.nextWord w)
    (hs : ∀ w s, h.cursor (h.ctxSetStatus w s) = h.cursor w
      ∧ h.nextWord (h.ctxSetStatus w s) = h.nextWord w)
    (n : Nat) (w : W) :
    (exitWordLoop h n w).2 = (List.replicate n (repetitionCalls h w)).flatten
    ∧ h.cursor (exitWordLoop h n w).1 = h.cursor w := by
  induction n generalizing w with
  | zero => simp [exitWordLoop]
  | succ n ih =>
    have hc : h.cursor (afterRepetition h w) = h.cursor w := by
      unfold afterRepetition
      rw [(hf _ _ _).1]
      split
      · rfl
      · exact (hs _ _).1
    have hn : h.nextWord (afterRepetition h w) = h.nextWord w := by
      unfold afterRepetition
      rw [(hf _ _ _).2]
      split
      · rfl
      · exact (hs _ _).2
    have hrep : repetitionCalls h (afterRepetition h w) = repetitionCalls h w := by
      unfold repetitionCalls
      rw [hc, hn]
    obtain ⟨h1, h2⟩ := ih (afterRepetition h w)
    rw [(exitWordLoop_unfold h n w).1, (exitWordLoop_unfold h n w).2, h1, h2, hrep, hc]
    exact ⟨by simp [List.replicate_succ], rfl⟩


theorem exit_word_world {W C : Type} (h : Host W C) (m : TextObjectMode) (w : W)
    (he : m.err = none) (hk : m.object.kind = textObjectWord) :
    (exit h m w).1
      = h.finalizeActionGroup (exitWordLoop h (mulInt m.reps m.outerReps).toNat w).1 := by
  simp [exit, he, hk]

/-- C17: in `exit` for the word kind each repetition hands the delegate
`from` = the view's cursor as it is when that repetition starts and `to` =
that cursor advanced by one `NextWord`, and the next repetition starts in the
world the delegate left.  `exit` does not write the cursor itself: when the
delegate and the status call leave the cursor and the word boundaries as they
are, every repetition makes the same calls, so every delegate invocation
receives the one pair (cursor, cursor advanced by one word), the number of
invocations is still the loop bound, and the cursor after the loop is the
cursor before it. -/
theorem word_range_restarts_at_cursor {W C : Type} (h : Host W C) (m : TextObjectMode) (w : W)
    (herr : m.err = none) (hkind : m.object.kind = textObjectWord)
    (hf : ∀ w a b, h.cursor (h.f w a b) = h.cursor w ∧ h.nextWord (h.f w a b) = h.nextWord w)
    (hs : ∀ w s, h.cursor (h.ctxSetStatus w s) = h.cursor w
      ∧ h.nextWord (h.ctxSetStatus w s) = h.nextWord w) :
    (∀ (n : Nat) (w0 : W),
        (exitWordLoop h (n + 1) w0).2
          = [Effect.nextWord (h.cursor w0) (h.nextWord w0 (h.cursor w0)).2]
            ++ (if (h.nextWord w0 (h.cursor w0)).2 then []
                else [Effect.ctxSetStatus "End of buffer"])
            ++ [Effect.rangeFunc (h.cursor w0) (h.nextWord w0 (h.cursor w0)).1]
            ++ (exitWordLoop h n (afterRepetition h w0)).2)
    ∧ (exit h m w).2
        = (List.replicate (mulInt m.reps m.outerReps).toNat (repetitionCalls h w)).flatten
          ++ [Effect.finalizeActionGroup]
    ∧ (∀ a b, Effect.rangeFunc a b ∈ (exit h m w).2 →
        a = h.cursor w ∧ b = (h.nextWord w (h.cursor w)).1)
    ∧ delegateCalls (exit h m w).2 = (mulInt m.reps m.outerReps).toNat
    ∧ h.cursor (exitWordLoop h (mulInt m.reps m.outerReps).toNat w).1 = h.cursor w
    ∧ ((∀ w0, h.cursor (h.finalizeActionGroup w0) = h.cursor w0) →
        h.cursor (exit h m w).1 = h.cursor w) := by
  have hloop := exitWordLoop_same_range h hf hs (mulInt m.reps m.outerReps).toNat w
  have htrace : (exit h m w).2
      = (List.replicate (mulInt m.reps m.outerReps).toNat (repetitionCalls h w)).flatten
        ++ [Effect.finalizeActionGroup] := by
    rw [exit_word h m w herr hkind, hloop.1]
  refine ⟨?_, htrace, ?_, ?_, hloop.2, ?_⟩
  · intro n w0
    exact (exitWordLoop_unfold h n w0).1
  · intro a b hab
    rw [htrace] at hab
    simp only [List.mem_append, List.mem_flatten, List.mem_replicate, List.mem_singleton,
      reduceCtorEq, or_false] at hab
    obtain ⟨l, ⟨-, rfl⟩, hl⟩ := hab
    unfold repetitionCalls at hl
    simp only [List.mem_append, List.mem_singleton, List.mem_cons, reduceCtorEq,
      Effect.rangeFunc.injEq, List.not_mem_nil, or_false, false_or] at hl
    rcases hl with hl | hl
    · split at hl <;> simp at hl
    · exact hl
  · rw [exit_word h m w herr hkind, delegateCalls_append, exitWordLoop_delegateCalls]
    simp [delegateCalls]
  · intro hfin
    rw [exit_word_world h m w herr hkind, hfin, hloop.2]

/-- C17 with a delegate that changes nothing: three repetitions from cursor
0 hand the delegate the range `(0, 1)` three times, not a range over three
words, and the cursor is still 0 afterwards. -/
theorem word_range_three_yanks :
    (exit (yankHost 4)
        { mode := 0, object := { inner := false, kind := textObjectWord },
          stage := textObjectStageChar2, err := none, outerReps := 1,
          repChars := [rune '3'], reps := 3 } 0).2
      = [Effect.nextWord 0 true, Effect.rangeFunc 0 1,
         Effect.nextWord 0 true, Effect.rangeFunc 0 1,
         Effect.nextWord 0 true, Effect.rangeFunc 0 1,
         Effect.finalizeActionGroup]
    ∧ (∀ a b, Effect.rangeFunc a b ∈ (exit (yankHost 4)
        { mode := 0, object := { inner := false, kind := textObjectWord },
          stage := textObjectStageChar2, err := none, outerReps := 1,
          repChars := [rune '3'], reps := 3 } 0).2 → a = 0 ∧ b = 1)
    ∧ (yankHost 4).cursor (exit (yankHost 4)
        { mode := 0, object := { inner := false, kind := textObjectWord },
          stage := textObjectStageChar2, err := none, outerReps := 1,
          repChars := [rune '3'], reps := 3 } 0).1 = 0 := by
  have h := word_range_restarts_at_cursor (yankHost 4)
    { mode := 0, object := { inner := false, kind := textObjectWord },
      stage := textObjectStageChar2, err := none, outerReps := 1,
      repChars := [rune '3'], reps := 3 } 0 rfl rfl
    (fun _ _ _ => ⟨rfl, rfl⟩) (fun _ _ => ⟨rfl, rfl⟩)
  exact ⟨by decide, h.2.2.1, h.2.2.2.2.2 (fun _ => rfl)⟩

end Vigo
